import Mathlib

/-!
Shallow embedding of `src/cmr/data_loader.py` (crypto-min-resolution).

Conventions of the embedding:
* timestamps are `Nat` (epoch milliseconds); the resample rule `'1H'` of the
  source is an arbitrary positive bucket width `Δ : Nat`, and a pandas
  resample bucket is the floor of a timestamp to a multiple of `Δ` (pandas
  aligns hourly buckets to the epoch);
* float series are `List (Option ℚ)`, `none` modelling NaN;
* the external `ta.add_all_ta_features` library call is a parameter
  `taFeat` appending derived feature columns to the frame, as the library
  does; its formulas are out of scope;
* the raw-file store is a partial map `String → Option (List RawRow)`;
  a missing file makes `pd.read_csv` raise, modelled with `Except.error`;
* `warnings.warn` is modelled by a `warned` flag in the result;
* float `±inf` produced by a zero divisor in `pct_change` is mapped to
  `none` directly, since the pipeline's later `replace([inf, -inf], nan)`
  sends every infinity to NaN before any step reads the value;
* `relativedelta(months=6)` is calendar arithmetic on timestamps; it is
  modelled by an arbitrary `lookback : Nat` subtracted from `start`, so
  every theorem below holds for the 6-month value in particular.
-/

namespace CMR

/-- One raw record of a symbol's input CSV: epoch-ms time plus OHLCV. -/
structure RawRow where
  time : Nat
  open_ : ℚ
  high : ℚ
  low : ℚ
  close : ℚ
  volume : ℚ
deriving Repr, DecidableEq

/-- A pandas float Series: one entry per index position, `none` is NaN. -/
abbrev Series := List (Option ℚ)

/-- A pandas DataFrame: a time index plus named float columns (each column
aligned positionally with the index). -/
structure DataFrame where
  index : List Nat
  cols : List (String × Series)
deriving Repr, DecidableEq

/-- `pd.DataFrame()`: no rows and no columns. -/
def emptyDF : DataFrame := ⟨[], []⟩

/-- Column access by name; a name that is absent yields the empty series. -/
def getCol (df : DataFrame) (name : String) : Series :=
  (df.cols.lookup name).getD []

/-- One cell of a named column; out-of-range or absent is NaN. -/
def cell (df : DataFrame) (name : String) (i : Nat) : Option ℚ :=
  (getCol df name).getD i none

/-- The column names of a frame, in order. -/
def colNames (df : DataFrame) : List String :=
  df.cols.map Prod.fst

/-- The resample bucket of a timestamp: floor to a multiple of `Δ`. -/
def bucketOf (Δ t : Nat) : Nat := t / Δ * Δ

/-- The raw rows falling in bucket `b`. -/
def bucketRows (Δ : Nat) (rows : List RawRow) (b : Nat) : List RawRow :=
  rows.filter (fun r => decide (bucketOf Δ r.time = b))

/-- The buckets the raw rows occupy, in row order. -/
def bucketList (Δ : Nat) (rows : List RawRow) : List Nat :=
  rows.map (fun r => bucketOf Δ r.time)

/-- The first occupied bucket. -/
def bMin (Δ : Nat) (rows : List RawRow) : Nat :=
  (bucketList Δ rows).foldr min ((bucketList Δ rows).headD 0)

/-- The last occupied bucket. -/
def bMax (Δ : Nat) (rows : List RawRow) : Nat :=
  (bucketList Δ rows).foldr max 0

/-- The complete regular bucket grid of `df.resample(rule)`: every multiple
of `Δ` from the first occupied bucket to the last one. -/
def gridTimes (Δ : Nat) (rows : List RawRow) : List Nat :=
  if rows.isEmpty then [] else
  (List.range ((bMax Δ rows - bMin Δ rows) / Δ + 1)).map
    (fun i => bMin Δ rows + i * Δ)

/-- groupby-`max` of a bucket (NaN on an empty bucket). -/
def aggMax (l : List ℚ) : Option ℚ := l.max?

/-- groupby-`min` of a bucket (NaN on an empty bucket). -/
def aggMin (l : List ℚ) : Option ℚ := l.min?

/-- `df.resample(rule).agg({open: first, high: max, low: min, close: last,
volume: sum})`: the regular grid with per-bucket aggregates; an empty
bucket has NaN prices and volume 0 (an empty float sum). -/
def resample (Δ : Nat) (rows : List RawRow) : DataFrame :=
  let ts := gridTimes Δ rows
  { index := ts
    cols :=
      [("open", ts.map fun b => ((bucketRows Δ rows b).head?).map RawRow.open_),
       ("high", ts.map fun b => aggMax ((bucketRows Δ rows b).map RawRow.high)),
       ("low", ts.map fun b => aggMin ((bucketRows Δ rows b).map RawRow.low)),
       ("close", ts.map fun b => ((bucketRows Δ rows b).getLast?).map RawRow.close),
       ("volume", ts.map fun b => some ((bucketRows Δ rows b).map RawRow.volume).sum)] }

/-- Forward fill of one series, carrying the last non-NaN value. -/
def ffillSeries : Option ℚ → Series → Series
  | _, [] => []
  | acc, none :: s => acc :: ffillSeries acc s
  | _, some v :: s => some v :: ffillSeries (some v) s

/-- `df.ffill()`: forward fill every column independently. -/
def ffillDF (df : DataFrame) : DataFrame :=
  { df with cols := df.cols.map (fun c => (c.1, ffillSeries none c.2)) }

/-- One step of `close.pct_change()` in float arithmetic: NaN when either
operand is NaN; a zero previous close gives `±inf` or `0/0`, which the
pipeline's `replace([inf, -inf], nan)` turns into NaN, modelled as `none`
directly (`Option ℚ` has no infinities). -/
def pctChangeCell (prev cur : Option ℚ) : Option ℚ :=
  match prev, cur with
  | some p, some c => if p = 0 then none else some (c / p - 1)
  | _, _ => none

/-- `Series.pct_change()`: NaN at position 0, then the percent change of
consecutive entries. -/
def pct_change (s : Series) : Series :=
  match s with
  | [] => []
  | _ :: t => none :: List.zipWith pctChangeCell s t

/-- `df['ret'] = df.close.pct_change()`. -/
def addRetCol (df : DataFrame) : DataFrame :=
  { df with cols := df.cols ++ [("ret", pct_change (getCol df "close"))] }

/-- `df.dropna(axis=1, how='all')`: drop the columns that hold no value. -/
def dropAllNaCols (df : DataFrame) : DataFrame :=
  { df with cols := df.cols.filter (fun c => c.2.any (fun v => v.isSome)) }

/-- A per-symbol panel: the frame tagged with the symbol identity (the
source's `df['symbol'] = symbol` plus the set_index/reset_index pair,
which only moves the tag between index and columns). -/
structure SymbolPanel where
  symbol : String
  df : DataFrame
deriving Repr, DecidableEq

/-- The outcome of one `load_data` call: the panel plus whether
`warnings.warn` fired. -/
structure LoadResult where
  panel : SymbolPanel
  warned : Bool
deriving Repr, DecidableEq

/-- The range filter `df[(df.index >= start) & (df.index < end)]`. -/
def rawFiltered (start end_ : Nat) (raw : List RawRow) : List RawRow :=
  raw.filter (fun r => decide (start ≤ r.time) && decide (r.time < end_))

/-- The per-symbol frame before feature derivation: resample, forward
fill, `ret` column. -/
def perSymbolFrame (Δ : Nat) (rows : List RawRow) : DataFrame :=
  addRetCol (ffillDF (resample Δ rows))

/-- The feature step `ta.add_all_ta_features(df, ...)` followed by
`.replace([inf, -inf], nan).dropna(axis=1, how='all').ffill()` (the
`replace` is already folded into the NaN encoding of the series). -/
def featurize (taFeat : DataFrame → List (String × Series)) (df : DataFrame) :
    DataFrame :=
  ffillDF (dropAllNaCols { df with cols := df.cols ++ taFeat df })

/-- `load_data(symbol, start, end, resample_rule)`: read the raw file
(raising if it is absent), filter to `start ≤ t < end`, resample and
forward fill, add the `ret` column, soft-fail below 30 bars, then append
the ta feature columns, drop all-NaN columns and forward fill. -/
def load_data (store : String → Option (List RawRow))
    (taFeat : DataFrame → List (String × Series))
    (symbol : String) (start end_ Δ : Nat) : Except String LoadResult :=
  match store symbol with
  | none => .error ("FileNotFoundError: " ++ symbol ++ ".csv")
  | some raw =>
    let df := perSymbolFrame Δ (rawFiltered start end_ raw)
    if df.index.isEmpty || df.index.length < 30 then
      .ok ⟨⟨symbol, emptyDF⟩, true⟩
    else
      .ok ⟨⟨symbol, featurize taFeat df⟩, false⟩

/-- The `Parallel(n_jobs=8)(delayed(...)(s) for s in symbols)` fan-out:
joblib collects every worker's result in input order and re-raises the
first worker exception, aborting the batch; parallel scheduling has no
other observable effect on the result. -/
def fanOut (store : String → Option (List RawRow))
    (taFeat : DataFrame → List (String × Series)) :
    List String → Nat → Nat → Nat → Except String (List SymbolPanel)
  | [], _, _, _ => .ok []
  | s :: ss, start, end_, Δ => do
    let r ← load_data store taFeat s start end_ Δ
    let ps ← fanOut store taFeat ss start end_ Δ
    pure (r.panel :: ps)

/-- First-appearance deduplication, as `pd.concat` / `pivot` produce their
unique label sets. -/
def uniqueList {α : Type} [DecidableEq α] : List α → List α
  | [] => []
  | a :: l => a :: (uniqueList l).filter (fun b => decide (b ≠ a))

/-- The union of the panels' column names in order of first appearance,
as `pd.concat` aligns columns. -/
def unionCols (panels : List SymbolPanel) : List String :=
  uniqueList ((panels.map (fun p => colNames p.df)).flatten)

/-- `pd.concat` on empty frames only (or on no frames at all) yields a frame
without the `time`/`symbol` columns, so the subsequent `set_index` / `pivot`
raises a KeyError. -/
def allPanelsEmpty (panels : List SymbolPanel) : Bool :=
  panels.all (fun p => p.df.index.isEmpty)

/-- One row of the market-data view: `(time, symbol)` key plus the OHLCV
cells, NaN where the panel lacks a column (concat alignment). -/
structure MRow where
  time : Nat
  symbol : String
  open_ : Option ℚ
  high : Option ℚ
  low : Option ℚ
  close : Option ℚ
  volume : Option ℚ
deriving Repr, DecidableEq

/-- The rows a single panel contributes under the `(time, symbol)` index. -/
def panelMRows (p : SymbolPanel) : List MRow :=
  (List.range p.df.index.length).map fun i =>
    { time := p.df.index.getD i 0
      symbol := p.symbol
      open_ := cell p.df "open" i
      high := cell p.df "high" i
      low := cell p.df "low" i
      close := cell p.df "close" i
      volume := cell p.df "volume" i }

/-- The `pd.concat` / `set_index` / column-select / clip tail of
`load_market_data`, applied to the fanned-out panels. -/
def marketFromPanels (start end_ : Nat) (panels : List SymbolPanel) :
    Except String (List MRow) :=
  if allPanelsEmpty panels then .error "KeyError: time, symbol"
  else if ["open", "high", "low", "close", "volume"].all (unionCols panels).contains then
    .ok ((panels.map panelMRows).flatten.filter
      (fun r => decide (start ≤ r.time) && decide (r.time ≤ end_)))
  else .error "KeyError: ohlcv column"

/-- `load_market_data(symbols, start, end, resample_rule)`: fan out with
the lookback-extended start, concat, keep OHLCV, clip to
`start ≤ t ≤ end`. -/
def load_market_data (store : String → Option (List RawRow))
    (taFeat : DataFrame → List (String × Series))
    (symbols : List String) (start end_ lookback Δ : Nat) :
    Except String (List MRow) :=
  match fanOut store taFeat symbols (start - lookback) end_ Δ with
  | .error e => .error e
  | .ok panels => marketFromPanels start end_ panels

/-- The feature view: the kept column names plus one value row per
`(time, symbol)` key, aligned with those names. -/
structure FeatView where
  cols : List String
  rows : List (Nat × String × List (Option ℚ))
deriving Repr, DecidableEq

/-- The rows a single panel contributes to the feature view, restricted to
the kept columns (NaN where the panel lacks one). -/
def panelFeatRows (kept : List String) (p : SymbolPanel) :
    List (Nat × String × List (Option ℚ)) :=
  (List.range p.df.index.length).map fun i =>
    (p.df.index.getD i 0, p.symbol, kept.map (fun c => cell p.df c i))

/-- The feature-view column list: the concat columns minus OHLCV, minus
the two psar columns. -/
def featKept (panels : List SymbolPanel) : List String :=
  ((unionCols panels).filter
      (fun c => !(["open", "high", "low", "close", "volume"] : List String).contains c)).filter
    (fun c => !(["trend_psar_down", "trend_psar_up"] : List String).contains c)

/-- The concat / drop-columns / clip tail of `load_features` (`df.drop`
raises when a named column is missing from the concatenated frame). -/
def featViewFromPanels (start end_ : Nat) (panels : List SymbolPanel) :
    Except String FeatView :=
  if allPanelsEmpty panels then .error "KeyError: time, symbol"
  else if ["open", "high", "low", "close", "volume"].all (unionCols panels).contains then
    if ["trend_psar_down", "trend_psar_up"].all
        ((unionCols panels).filter
          (fun c => !(["open", "high", "low", "close", "volume"] : List String).contains c)).contains then
      .ok { cols := featKept panels
            rows := (panels.map (panelFeatRows (featKept panels))).flatten.filter
              (fun r => decide (start ≤ r.1) && decide (r.1 ≤ end_)) }
    else .error "KeyError: trend_psar column"
  else .error "KeyError: ohlcv column"

/-- `load_features(symbols, start, end, resample_rule)`: fan out, concat,
drop OHLCV, drop the two unreliable psar columns, clip to
`start ≤ t ≤ end`. -/
def load_features (store : String → Option (List RawRow))
    (taFeat : DataFrame → List (String × Series))
    (symbols : List String) (start end_ lookback Δ : Nat) :
    Except String FeatView :=
  match fanOut store taFeat symbols (start - lookback) end_ Δ with
  | .error e => .error e
  | .ok panels => featViewFromPanels start end_ panels

/-- Lexicographic byte-wise comparison of strings as a boolean, used to
model the ascending sort that `pivot` applies to its index and columns. -/
def charsLe : List Char → List Char → Bool
  | [], _ => true
  | _ :: _, [] => false
  | a :: as, b :: bs =>
    if a.toNat < b.toNat then true
    else if b.toNat < a.toNat then false
    else charsLe as bs

/-- String order for the pivot's column sort. -/
def strLe (a b : String) : Bool := charsLe a.toList b.toList

/-- Insertion of one element into a list sorted by `le`. -/
def insertLe {α : Type} (le : α → α → Bool) (x : α) : List α → List α
  | [] => [x]
  | y :: ys => if le x y then x :: y :: ys else y :: insertLe le x ys

/-- Insertion sort by a boolean order. -/
def sortBy {α : Type} (le : α → α → Bool) (l : List α) : List α :=
  l.foldr (insertLe le) []

/-- The wide returns table: sorted unique times, symbol columns in sorted
order, and one all-ℚ value row per time (after `fillna(0)`). -/
structure RetTable where
  times : List Nat
  syms : List String
  vals : List (List ℚ)
deriving Repr, DecidableEq

/-- The `(time, symbol, ret)` records a panel feeds into the pivot. -/
def panelRetRows (p : SymbolPanel) : List (Nat × String × Option ℚ) :=
  (List.range p.df.index.length).map fun i =>
    (p.df.index.getD i 0, p.symbol, cell p.df "ret" i)

/-- All `(time, symbol, ret)` records of the concatenated panels. -/
def retEntries (panels : List SymbolPanel) : List (Nat × String × Option ℚ) :=
  (panels.map panelRetRows).flatten

/-- One cell of the pivoted table after `fillna(0)`: a missing `(t, s)`
record and a NaN `ret` record both become 0. -/
def pivotCell (entries : List (Nat × String × Option ℚ)) (t : Nat) (s : String) : ℚ :=
  ((entries.find? (fun e => decide (e.1 = t) && decide (e.2.1 = s))).bind
    (fun e => e.2.2)).getD 0

/-- The pivot's row index: unique times, ascending. -/
def pivotTimes (panels : List SymbolPanel) : List Nat :=
  sortBy (fun a b => decide (a ≤ b))
    (uniqueList ((retEntries panels).map (fun e => e.1)))

/-- The pivot's columns: unique symbols, ascending. -/
def pivotSyms (panels : List SymbolPanel) : List String :=
  sortBy strLe (uniqueList ((retEntries panels).map (fun e => e.2.1)))

/-- `concat.pivot(index='time', columns='symbol', values='ret').fillna(0)`:
unique sorted times by unique sorted symbols. -/
def pivotRet (panels : List SymbolPanel) : RetTable :=
  { times := pivotTimes panels
    syms := pivotSyms panels
    vals := (pivotTimes panels).map fun t =>
      (pivotSyms panels).map fun s => pivotCell (retEntries panels) t s }

/-- `df['cash'] = 0`: overwrite an existing `cash` column with zeros, or
append a fresh zero column. -/
def addCash (T : RetTable) : RetTable :=
  if T.syms.contains "cash" then
    { T with vals := T.vals.map fun row =>
        (T.syms.zip row).map (fun p => if p.1 == "cash" then 0 else p.2) }
  else
    { T with syms := T.syms ++ ["cash"], vals := T.vals.map (fun row => row ++ [0]) }

/-- The pivot / fillna / cash tail shared by `load_ret` and `load_cov`:
`pivot` raises on a missing `ret` column and on duplicate `(time, symbol)`
keys. -/
def retTableFromPanels (panels : List SymbolPanel) : Except String RetTable :=
  if allPanelsEmpty panels then .error "KeyError: time"
  else if !(unionCols panels).contains "ret" then .error "KeyError: ret"
  else if !decide (((retEntries panels).map
      (fun e => (e.1, e.2.1))).Nodup) then
    .error "ValueError: duplicate entries"
  else .ok (addCash (pivotRet panels))

/-- The shared pipeline of `load_ret` and `load_cov` up to the finished
wide returns table: fan out, concat, pivot, `fillna(0)`, cash column. -/
def retPipeline (store : String → Option (List RawRow))
    (taFeat : DataFrame → List (String × Series))
    (symbols : List String) (start end_ lookback Δ : Nat) :
    Except String RetTable :=
  match fanOut store taFeat symbols (start - lookback) end_ Δ with
  | .error e => .error e
  | .ok panels => retTableFromPanels panels

/-- Clip a returns table to `start ≤ t ≤ end`. -/
def clipRet (start end_ : Nat) (T : RetTable) : RetTable :=
  let keep := (T.times.zip T.vals).filter
    (fun r => decide (start ≤ r.1) && decide (r.1 ≤ end_))
  { T with times := keep.map (fun r => r.1), vals := keep.map (fun r => r.2) }

/-- `load_ret(symbols, start, end, resample_rule)`. -/
def load_ret (store : String → Option (List RawRow))
    (taFeat : DataFrame → List (String × Series))
    (symbols : List String) (start end_ lookback Δ : Nat) :
    Except String RetTable :=
  (retPipeline store taFeat symbols start end_ lookback Δ).map (clipRet start end_)

/-- The sample covariance (pandas `ddof=1`) of two equally long columns;
a window of fewer than two observations has an undefined (NaN) variance,
so the caller only uses `w ≥ 2`. -/
def sampleCovPair (xs ys : List ℚ) : ℚ :=
  let n : ℚ := xs.length
  let xbar := xs.sum / n
  let ybar := ys.sum / n
  ((xs.zip ys).map (fun p => (p.1 - xbar) * (p.2 - ybar))).sum / (n - 1)

/-- Column `j` of a block of pivot rows. -/
def colSlice (rows : List (List ℚ)) (j : Nat) : List ℚ :=
  rows.map (fun row => row.getD j 0)

/-- The sample covariance matrix of the `w` pivot rows ending at row `i`
(inclusive), across every column. -/
def windowCovMatrix (T : RetTable) (w i : Nat) : List (List ℚ) :=
  let rows := ((T.vals.drop (i + 1 - w)).take w)
  (List.range T.syms.length).map fun a =>
    (List.range T.syms.length).map fun b =>
      sampleCovPair (colSlice rows a) (colSlice rows b)

/-- `rolling(window=w, min_periods=w).cov()` at row `i`, after `dropna()`:
a matrix appears only once `w` rows exist (`min_periods`), and a
one-observation window has an all-NaN (`ddof=1`) matrix that `dropna()`
also removes, hence the `2 ≤ w` guard. -/
def rollingCovAt (T : RetTable) (w i : Nat) : Option (List (List ℚ)) :=
  if w ≤ i + 1 ∧ 2 ≤ w then some (windowCovMatrix T w i) else none

/-- The covariance view: the column order plus one `(time, matrix)` entry
per surviving timestamp. -/
structure CovView where
  syms : List String
  rows : List (Nat × List (List ℚ))
deriving Repr, DecidableEq

/-- `load_cov(symbols, start, end, window, resample_rule)`: the shared
returns table, then the trailing rolling covariance with
`min_periods=window`, `dropna()`, and the clip of the emitted timestamps
to `start ≤ t ≤ end`. -/
def load_cov (store : String → Option (List RawRow))
    (taFeat : DataFrame → List (String × Series))
    (symbols : List String) (start end_ : Nat) (window : Nat)
    (lookback Δ : Nat) : Except String CovView :=
  (retPipeline store taFeat symbols start end_ lookback Δ).map fun T =>
    { syms := T.syms
      rows := ((List.range T.times.length).filterMap fun i =>
          (rollingCovAt T window i).map (fun M => (T.times.getD i 0, M))).filter
        (fun r => decide (start ≤ r.1) && decide (r.1 ≤ end_)) }

/-! ### A concrete store for concrete evaluations

A unit bucket width (`Δ = 1`) plays the role of `'1H'`; `aaausd` has 31
buckets with a gap at time 1 and an opening bar whose open differs from
its close; `bbbusd` is a full flat series; `zzzusd` and `yyyusd` have a
raw file with no rows in range; every other symbol has no raw file. -/

def rowsA : List RawRow :=
  ⟨0, 1, 3, 1, 2, 5⟩ :: (List.range 29).map (fun i => ⟨i + 2, 2, 2, 2, 2, 1⟩)

def rowsB : List RawRow :=
  (List.range 31).map (fun i => ⟨i, 1, 1, 1, 1, 1⟩)

def exStore : String → Option (List RawRow) :=
  fun s => if s = "aaausd" then some rowsA
    else if s = "bbbusd" then some rowsB
    else if s = "zzzusd" then some []
    else if s = "yyyusd" then some []
    else none

/-- A concrete stand-in for the external ta library: three constant
feature columns, among them the two psar columns. -/
def exTa : DataFrame → List (String × Series) :=
  fun df => [("feat_a", df.index.map (fun _ => some 1)),
             ("trend_psar_down", df.index.map (fun _ => some 0)),
             ("trend_psar_up", df.index.map (fun _ => some 0))]

/-- The finished `aaausd` panel. -/
def resA : LoadResult :=
  ((load_data exStore exTa "aaausd" 0 40 1).toOption).getD ⟨⟨"", emptyDF⟩, false⟩

/-- The market view of the `aaausd` / `zzzusd` batch. -/
def exMarket : List MRow :=
  ((load_market_data exStore exTa ["aaausd", "zzzusd"] 0 40 0 1).toOption).getD []

/-- The feature view of the `aaausd` / `bbbusd` batch. -/
def exFeat : FeatView :=
  ((load_features exStore exTa ["aaausd", "bbbusd"] 0 40 0 1).toOption).getD ⟨[], []⟩

/-- The returns view of the `aaausd` / `zzzusd` batch. -/
def exRet : RetTable :=
  ((load_ret exStore exTa ["aaausd", "zzzusd"] 0 40 0 1).toOption).getD ⟨[], [], []⟩

/-- The returns view of the `bbbusd` / `zzzusd` batch. -/
def exRetB : RetTable :=
  ((load_ret exStore exTa ["bbbusd", "zzzusd"] 0 40 0 1).toOption).getD ⟨[], [], []⟩

/-- The returns view of the `aaausd` / `bbbusd` batch. -/
def exRetAB : RetTable :=
  ((load_ret exStore exTa ["aaausd", "bbbusd"] 0 40 0 1).toOption).getD ⟨[], [], []⟩

/-- The covariance view of the `aaausd` / `bbbusd` batch with window 2. -/
def exCov : CovView :=
  ((load_cov exStore exTa ["aaausd", "bbbusd"] 0 40 2 0 1).toOption).getD ⟨[], []⟩

/-! ### List utilities -/

theorem getD_eq_getElem? {α : Type} (l : List α) (i : Nat) (d : α) :
    l.getD i d = (l[i]?).getD d := by
  simp [List.getD]

theorem lookup_map_val {α β γ : Type} [BEq α] (f : β → γ) (l : List (α × β))
    (k : α) :
    List.lookup k (l.map (fun p => (p.1, f p.2))) = (List.lookup k l).map f := by
  induction l with
  | nil => rfl
  | cons p t ih =>
    obtain ⟨a, b⟩ := p
    cases hk : k == a <;> simp [List.lookup, hk, ih]

theorem lookup_append_some {α β : Type} [BEq α] {l₁ l₂ : List (α × β)} {k : α}
    {v : β} (h : List.lookup k l₁ = some v) :
    List.lookup k (l₁ ++ l₂) = some v := by
  induction l₁ with
  | nil => simp [List.lookup] at h
  | cons p t ih =>
    obtain ⟨a, b⟩ := p
    cases hk : k == a <;> simp [List.lookup, hk] at h ⊢ <;> simp_all

theorem lookup_filter_pos {α β : Type} [BEq α] [LawfulBEq α]
    (pred : α × β → Bool) {l : List (α × β)} {k : α} {v : β}
    (h : List.lookup k l = some v) (hp : pred (k, v) = true) :
    List.lookup k (l.filter pred) = some v := by
  induction l with
  | nil => simp [List.lookup] at h
  | cons p t ih =>
    obtain ⟨a, b⟩ := p
    cases hk : k == a with
    | true =>
      have hka : k = a := eq_of_beq hk
      subst hka
      have hv : b = v := by
        have h2 := h
        simp [List.lookup] at h2
        exact h2
      subst hv
      have hpred : pred (k, b) = true := hp
      simp [List.filter_cons, hpred, List.lookup]
    | false =>
      have h' : List.lookup k t = some v := by
        simpa [List.lookup, hk] using h
      cases hpred : pred (a, b) with
      | true => simp [List.filter_cons, hpred, List.lookup, hk, ih h']
      | false => simp [List.filter_cons, hpred, ih h']

theorem headD_mem {α : Type} {l : List α} (h : l ≠ []) (d : α) :
    l.headD d ∈ l := by
  cases l with
  | nil => exact absurd rfl h
  | cons a t => simp

theorem mem_uniqueList {α : Type} [DecidableEq α] {x : α} {l : List α} :
    x ∈ uniqueList l ↔ x ∈ l := by
  induction l with
  | nil => simp [uniqueList]
  | cons a t ih =>
    by_cases hxa : x = a <;>
      simp [uniqueList, List.mem_filter, ih, hxa]

theorem mem_insertLe {α : Type} (le : α → α → Bool) (x y : α) (l : List α) :
    x ∈ insertLe le y l ↔ x = y ∨ x ∈ l := by
  induction l with
  | nil => simp [insertLe]
  | cons a t ih =>
    cases h : le y a
    · simp only [insertLe, h, ite_false, Bool.false_eq_true, List.mem_cons, ih]
      tauto
    · simp [insertLe, h]

theorem sortBy_cons {α : Type} (le : α → α → Bool) (a : α) (t : List α) :
    sortBy le (a :: t) = insertLe le a (sortBy le t) := rfl

theorem mem_sortBy {α : Type} (le : α → α → Bool) (x : α) (l : List α) :
    x ∈ sortBy le l ↔ x ∈ l := by
  induction l with
  | nil => simp [sortBy]
  | cons a t ih => simp [sortBy_cons, mem_insertLe, ih]

/-! ### Forward-fill lemmas -/

theorem ffillSeries_length (acc : Option ℚ) (s : Series) :
    (ffillSeries acc s).length = s.length := by
  induction s generalizing acc with
  | nil => rfl
  | cons a t ih => cases a <;> simp [ffillSeries, ih]

theorem ffillSeries_getElem_some (acc : Option ℚ) (s : Series) (i : Nat)
    (v : ℚ) (h : s[i]? = some (some v)) :
    (ffillSeries acc s)[i]? = some (some v) := by
  induction s generalizing acc i with
  | nil => simp at h
  | cons a t ih =>
    cases i with
    | zero =>
      simp at h
      subst h
      simp [ffillSeries]
    | succ j =>
      have h' : t[j]? = some (some v) := by simpa using h
      cases a <;> simpa [ffillSeries] using ih _ j h'

theorem ffillSeries_getElem_none_step (acc : Option ℚ) (s : Series) (j : Nat)
    (h : s[j + 1]? = some none) :
    (ffillSeries acc s)[j + 1]? = (ffillSeries acc s)[j]? := by
  induction s generalizing acc j with
  | nil => simp at h
  | cons a t ih =>
    have h' : t[j]? = some none := by simpa using h
    cases j with
    | zero =>
      obtain ⟨t', ht⟩ : ∃ t', t = none :: t' := by
        cases t with
        | nil => simp at h'
        | cons b t' =>
          simp at h'
          exact ⟨t', by rw [h']⟩
      subst ht
      cases a <;> simp [ffillSeries]
    | succ k =>
      cases a <;> simpa [ffillSeries] using ih _ k h'

theorem ffillSeries_isSome (acc : Option ℚ) (s : Series)
    (hacc : acc.isSome = true) : ∀ x ∈ ffillSeries acc s, x.isSome = true := by
  induction s generalizing acc with
  | nil => simp [ffillSeries]
  | cons a t ih =>
    intro x hx
    cases a with
    | none =>
      rcases List.mem_cons.1 hx with h | h
      · rw [h]; exact hacc
      · exact ih acc hacc x h
    | some v =>
      rcases List.mem_cons.1 hx with h | h
      · rw [h]; rfl
      · exact ih (some v) rfl x h

theorem ffillSeries_id_of_isSome (acc : Option ℚ) (s : Series)
    (h : ∀ x ∈ s, x.isSome = true) : ffillSeries acc s = s := by
  induction s generalizing acc with
  | nil => rfl
  | cons a t ih =>
    cases a with
    | none => simpa using h none (by simp)
    | some v => simp [ffillSeries, ih (some v) (fun x hx => h x (by simp [hx]))]

theorem ffillSeries_values (acc : Option ℚ) (s : Series) (x : Option ℚ)
    (hx : x ∈ ffillSeries acc s) : x ∈ s ∨ x = acc := by
  induction s generalizing acc with
  | nil => simp [ffillSeries] at hx
  | cons a t ih =>
    cases a with
    | none =>
      rcases List.mem_cons.1 hx with h | h
      · exact Or.inr h
      · rcases ih acc h with h' | h'
        · exact Or.inl (by simp [h'])
        · exact Or.inr h'
    | some v =>
      rcases List.mem_cons.1 hx with h | h
      · exact Or.inl (by simp [h])
      · rcases ih (some v) h with h' | h'
        · exact Or.inl (by simp [h'])
        · exact Or.inl (by simp [h'])

/-! ### fold-min / fold-max and grid lemmas -/

theorem foldr_min_le {l : List Nat} {x : Nat} (init : Nat) (hx : x ∈ l) :
    l.foldr min init ≤ x := by
  induction l with
  | nil => simp at hx
  | cons a t ih =>
    rcases List.mem_cons.1 hx with h | h
    · subst h; exact Nat.min_le_left _ _
    · exact le_trans (Nat.min_le_right _ _) (ih h)

theorem foldr_min_mem_or (l : List Nat) (init : Nat) :
    l.foldr min init ∈ l ∨ l.foldr min init = init := by
  induction l with
  | nil => simp
  | cons a t ih =>
    have hfold : (a :: t).foldr min init = min a (t.foldr min init) := rfl
    rcases min_choice a (t.foldr min init) with h | h
    · exact Or.inl (by rw [hfold, h]; exact List.mem_cons_self a t)
    · rcases ih with h' | h'
      · exact Or.inl (by rw [hfold, h]; exact List.mem_cons_of_mem a h')
      · exact Or.inr (by rw [hfold, h, h'])

theorem le_foldr_max {l : List Nat} {x : Nat} (init : Nat) (hx : x ∈ l) :
    x ≤ l.foldr max init := by
  induction l with
  | nil => simp at hx
  | cons a t ih =>
    rcases List.mem_cons.1 hx with h | h
    · subst h; exact Nat.le_max_left _ _
    · exact le_trans (ih h) (Nat.le_max_right _ _)

theorem foldr_max_mem_or (l : List Nat) (init : Nat) :
    l.foldr max init ∈ l ∨ l.foldr max init = init := by
  induction l with
  | nil => simp
  | cons a t ih =>
    have hfold : (a :: t).foldr max init = max a (t.foldr max init) := rfl
    rcases max_choice a (t.foldr max init) with h | h
    · exact Or.inl (by rw [hfold, h]; exact List.mem_cons_self a t)
    · rcases ih with h' | h'
      · exact Or.inl (by rw [hfold, h]; exact List.mem_cons_of_mem a h')
      · exact Or.inr (by rw [hfold, h, h'])

theorem bucketList_ne_nil {Δ : Nat} {rows : List RawRow} (h : rows ≠ []) :
    bucketList Δ rows ≠ [] := by
  cases rows with
  | nil => exact absurd rfl h
  | cons a t => simp [bucketList]

theorem bMin_mem {Δ : Nat} {rows : List RawRow} (h : rows ≠ []) :
    bMin Δ rows ∈ bucketList Δ rows := by
  rcases foldr_min_mem_or (bucketList Δ rows) ((bucketList Δ rows).headD 0) with
    h' | h'
  · exact h'
  · rw [bMin, h']; exact headD_mem (bucketList_ne_nil h) 0

theorem bMin_le {Δ : Nat} {rows : List RawRow} {x : Nat}
    (hx : x ∈ bucketList Δ rows) : bMin Δ rows ≤ x :=
  foldr_min_le _ hx

theorem le_bMax {Δ : Nat} {rows : List RawRow} {x : Nat}
    (hx : x ∈ bucketList Δ rows) : x ≤ bMax Δ rows :=
  le_foldr_max _ hx

theorem bMax_mem {Δ : Nat} {rows : List RawRow} (h : rows ≠ []) :
    bMax Δ rows ∈ bucketList Δ rows := by
  rcases foldr_max_mem_or (bucketList Δ rows) 0 with h' | h'
  · exact h'
  · rcases List.exists_mem_of_ne_nil _ (bucketList_ne_nil (Δ := Δ) h) with ⟨x, hx⟩
    have : x ≤ bMax Δ rows := le_bMax hx
    have h0 : bMax Δ rows = 0 := h'
    have : x = 0 := Nat.le_antisymm (h0 ▸ this) (Nat.zero_le x)
    rw [bMax, h']
    rw [this] at hx
    exact hx

theorem bMin_le_bMax {Δ : Nat} {rows : List RawRow} (h : rows ≠ []) :
    bMin Δ rows ≤ bMax Δ rows :=
  le_bMax (bMin_mem h)

theorem gridTimes_eq {Δ : Nat} {rows : List RawRow} (h : rows ≠ []) :
    gridTimes Δ rows = (List.range ((bMax Δ rows - bMin Δ rows) / Δ + 1)).map
      (fun i => bMin Δ rows + i * Δ) := by
  have : rows.isEmpty = false := by simp [List.isEmpty_iff, h]
  simp [gridTimes, this]

theorem gridTimes_length {Δ : Nat} {rows : List RawRow} (h : rows ≠ []) :
    (gridTimes Δ rows).length = (bMax Δ rows - bMin Δ rows) / Δ + 1 := by
  rw [gridTimes_eq h]
  simp

theorem gridTimes_getElem? {Δ : Nat} {rows : List RawRow} (h : rows ≠ [])
    {i : Nat} (hi : i < (gridTimes Δ rows).length) :
    (gridTimes Δ rows)[i]? = some (bMin Δ rows + i * Δ) := by
  rw [gridTimes_length h] at hi
  rw [gridTimes_eq h, List.getElem?_map, List.getElem?_range hi]
  rfl

theorem gridTimes_ne_nil_of_mem {Δ t : Nat} {rows : List RawRow}
    (ht : t ∈ gridTimes Δ rows) : rows ≠ [] := by
  intro hrow
  subst hrow
  simp [gridTimes] at ht

theorem mem_gridTimes {Δ t : Nat} {rows : List RawRow}
    (ht : t ∈ gridTimes Δ rows) :
    ∃ i, t = bMin Δ rows + i * Δ ∧ i ≤ (bMax Δ rows - bMin Δ rows) / Δ := by
  have h := gridTimes_ne_nil_of_mem ht
  rw [gridTimes_eq h] at ht
  rcases List.mem_map.1 ht with ⟨i, hi, rfl⟩
  exact ⟨i, rfl, by simpa using Nat.lt_succ_iff.1 (List.mem_range.1 hi)⟩

theorem gridTimes_le_bMax {Δ t : Nat} {rows : List RawRow}
    (ht : t ∈ gridTimes Δ rows) : t ≤ bMax Δ rows := by
  have hrow := gridTimes_ne_nil_of_mem ht
  obtain ⟨i, rfl, hi⟩ := mem_gridTimes ht
  have h1 : i * Δ ≤ ((bMax Δ rows - bMin Δ rows) / Δ) * Δ :=
    Nat.mul_le_mul_right _ hi
  have h2 : ((bMax Δ rows - bMin Δ rows) / Δ) * Δ ≤ bMax Δ rows - bMin Δ rows :=
    Nat.div_mul_le_self _ _
  have h3 := bMin_le_bMax (Δ := Δ) hrow
  omega

theorem bucketRows_bMin_ne_nil {Δ : Nat} {rows : List RawRow}
    (h : rows ≠ []) : bucketRows Δ rows (bMin Δ rows) ≠ [] := by
  have hmem := bMin_mem (Δ := Δ) h
  rcases List.mem_map.1 hmem with ⟨r, hr, hb⟩
  have : r ∈ bucketRows Δ rows (bMin Δ rows) :=
    List.mem_filter.2 ⟨hr, by simp [hb]⟩
  exact List.ne_nil_of_mem this

/-! ### Frame-access lemmas for the per-symbol pipeline -/

/-- The aggregated `open` series of the resample step. -/
def aggOpenSeries (Δ : Nat) (rows : List RawRow) : Series :=
  (gridTimes Δ rows).map (fun b => ((bucketRows Δ rows b).head?).map RawRow.open_)

/-- The aggregated `high` series. -/
def aggHighSeries (Δ : Nat) (rows : List RawRow) : Series :=
  (gridTimes Δ rows).map (fun b => aggMax ((bucketRows Δ rows b).map RawRow.high))

/-- The aggregated `low` series. -/
def aggLowSeries (Δ : Nat) (rows : List RawRow) : Series :=
  (gridTimes Δ rows).map (fun b => aggMin ((bucketRows Δ rows b).map RawRow.low))

/-- The aggregated `close` series. -/
def aggCloseSeries (Δ : Nat) (rows : List RawRow) : Series :=
  (gridTimes Δ rows).map (fun b => ((bucketRows Δ rows b).getLast?).map RawRow.close)

/-- The aggregated `volume` series (never NaN: an empty float sum is 0). -/
def aggVolumeSeries (Δ : Nat) (rows : List RawRow) : Series :=
  (gridTimes Δ rows).map (fun b => some ((bucketRows Δ rows b).map RawRow.volume).sum)

theorem perSymbolFrame_index (Δ : Nat) (rows : List RawRow) :
    (perSymbolFrame Δ rows).index = gridTimes Δ rows := rfl

theorem lookup_psf_open (Δ : Nat) (rows : List RawRow) :
    List.lookup "open" (perSymbolFrame Δ rows).cols =
      some (ffillSeries none (aggOpenSeries Δ rows)) := rfl

theorem lookup_psf_high (Δ : Nat) (rows : List RawRow) :
    List.lookup "high" (perSymbolFrame Δ rows).cols =
      some (ffillSeries none (aggHighSeries Δ rows)) := rfl

theorem lookup_psf_low (Δ : Nat) (rows : List RawRow) :
    List.lookup "low" (perSymbolFrame Δ rows).cols =
      some (ffillSeries none (aggLowSeries Δ rows)) := rfl

theorem lookup_psf_close (Δ : Nat) (rows : List RawRow) :
    List.lookup "close" (perSymbolFrame Δ rows).cols =
      some (ffillSeries none (aggCloseSeries Δ rows)) := rfl

theorem lookup_psf_volume (Δ : Nat) (rows : List RawRow) :
    List.lookup "volume" (perSymbolFrame Δ rows).cols =
      some (ffillSeries none (aggVolumeSeries Δ rows)) := rfl

theorem lookup_psf_ret (Δ : Nat) (rows : List RawRow) :
    List.lookup "ret" (perSymbolFrame Δ rows).cols =
      some (pct_change (ffillSeries none (aggCloseSeries Δ rows))) := rfl

theorem getCol_ffillDF (df : DataFrame) (c : String) :
    getCol (ffillDF df) c = ffillSeries none (getCol df c) := by
  unfold getCol ffillDF
  rw [lookup_map_val]
  cases h : List.lookup c df.cols <;> simp [h, ffillSeries]

theorem featurize_index (taFeat : DataFrame → List (String × Series))
    (df : DataFrame) : (featurize taFeat df).index = df.index := rfl

/-- A column whose every entry is a value survives the feature step
untouched: it is kept by `dropna(axis=1, how='all')` and the final
`ffill` leaves it unchanged. -/
theorem getCol_featurize {taFeat : DataFrame → List (String × Series)}
    {df : DataFrame} {c : String} {s : Series}
    (hc : List.lookup c df.cols = some s)
    (hall : ∀ x ∈ s, x.isSome = true) (hne : s ≠ []) :
    getCol (featurize taFeat df) c = s := by
  unfold featurize
  rw [getCol_ffillDF]
  have h1 : List.lookup c (df.cols ++ taFeat df) = some s := lookup_append_some hc
  have hany : s.any (fun v => v.isSome) = true := by
    cases s with
    | nil => exact absurd rfl hne
    | cons a t =>
      have := hall a (by simp)
      simp [List.any_cons, this]
  have h2 : List.lookup c
      (dropAllNaCols { df with cols := df.cols ++ taFeat df }).cols = some s := by
    simpa [dropAllNaCols] using lookup_filter_pos _ h1 hany
  unfold getCol
  rw [h2]
  simpa using ffillSeries_id_of_isSome none s hall

/-! ### `load_data` characterization -/

theorem load_data_missing {store : String → Option (List RawRow)}
    {taFeat : DataFrame → List (String × Series)}
    {symbol : String} {start end_ Δ : Nat} (h : store symbol = none) :
    load_data store taFeat symbol start end_ Δ =
      .error ("FileNotFoundError: " ++ symbol ++ ".csv") := by
  simp [load_data, h]

theorem load_data_soft {store : String → Option (List RawRow)}
    {taFeat : DataFrame → List (String × Series)}
    {symbol : String} {start end_ Δ : Nat} {raw : List RawRow}
    (h : store symbol = some raw)
    (hlen : (gridTimes Δ (rawFiltered start end_ raw)).length < 30) :
    load_data store taFeat symbol start end_ Δ = .ok ⟨⟨symbol, emptyDF⟩, true⟩ := by
  have hidx : (perSymbolFrame Δ (rawFiltered start end_ raw)).index.length < 30 := hlen
  simp [load_data, h, hidx]

theorem load_data_full {store : String → Option (List RawRow)}
    {taFeat : DataFrame → List (String × Series)}
    {symbol : String} {start end_ Δ : Nat} {raw : List RawRow}
    (h : store symbol = some raw)
    (hlen : ¬ (gridTimes Δ (rawFiltered start end_ raw)).length < 30) :
    load_data store taFeat symbol start end_ Δ =
      .ok ⟨⟨symbol, featurize taFeat (perSymbolFrame Δ (rawFiltered start end_ raw))⟩,
        false⟩ := by
  have hidx : ¬ (perSymbolFrame Δ (rawFiltered start end_ raw)).index.length < 30 := hlen
  have hemp : (perSymbolFrame Δ (rawFiltered start end_ raw)).index.isEmpty = false := by
    rcases hl : (perSymbolFrame Δ (rawFiltered start end_ raw)).index with _ | ⟨a, t⟩
    · rw [hl] at hidx
      simp at hidx
    · simp
  simp [load_data, h, hidx, hemp]

theorem load_data_ok_cases {store : String → Option (List RawRow)}
    {taFeat : DataFrame → List (String × Series)}
    {symbol : String} {start end_ Δ : Nat} {res : LoadResult}
    (h : load_data store taFeat symbol start end_ Δ = .ok res) :
    ∃ raw, store symbol = some raw ∧
      ((res = ⟨⟨symbol, emptyDF⟩, true⟩ ∧
          (gridTimes Δ (rawFiltered start end_ raw)).length < 30) ∨
        (res = ⟨⟨symbol,
            featurize taFeat (perSymbolFrame Δ (rawFiltered start end_ raw))⟩, false⟩ ∧
          ¬ (gridTimes Δ (rawFiltered start end_ raw)).length < 30)) := by
  cases hs : store symbol with
  | none => rw [load_data_missing hs] at h; cases h
  | some raw =>
    refine ⟨raw, rfl, ?_⟩
    by_cases hlen : (gridTimes Δ (rawFiltered start end_ raw)).length < 30
    · rw [load_data_soft hs hlen] at h
      exact Or.inl ⟨by cases h; rfl, hlen⟩
    · rw [load_data_full hs hlen] at h
      exact Or.inr ⟨by cases h; rfl, hlen⟩

theorem load_data_ok_of_some {store : String → Option (List RawRow)}
    {taFeat : DataFrame → List (String × Series)}
    {symbol : String} {start end_ Δ : Nat} {raw : List RawRow}
    (h : store symbol = some raw) :
    ∃ res, load_data store taFeat symbol start end_ Δ = .ok res := by
  by_cases hlen : (gridTimes Δ (rawFiltered start end_ raw)).length < 30
  · exact ⟨_, load_data_soft h hlen⟩
  · exact ⟨_, load_data_full h hlen⟩

theorem getLast?_mem_own {α : Type} {l : List α} {a : α}
    (h : l.getLast? = some a) : a ∈ l := by
  induction l with
  | nil => simp at h
  | cons x t ih =>
    cases t with
    | nil =>
      simp [List.getLast?] at h
      simp [h]
    | cons y t' =>
      have h' : (y :: t').getLast? = some a := by
        rw [← h]
        rfl
      exact List.mem_cons_of_mem x (ih h')

/-! ### Aggregate-column value lemmas -/

theorem aggVolumeSeries_isSome (Δ : Nat) (rows : List RawRow) :
    ∀ x ∈ aggVolumeSeries Δ rows, x.isSome = true := by
  intro x hx
  rcases List.mem_map.1 hx with ⟨b, _, rfl⟩
  rfl

theorem gridTimes_zero {Δ : Nat} {rows : List RawRow} (h : rows ≠ []) :
    (gridTimes Δ rows)[0]? = some (bMin Δ rows) := by
  have hlen : 0 < (gridTimes Δ rows).length := by
    rw [gridTimes_length h]
    exact Nat.succ_pos _
  simpa using gridTimes_getElem? h hlen

theorem aggOpen_head {Δ : Nat} {rows : List RawRow} (h : rows ≠ []) :
    ∃ v, (aggOpenSeries Δ rows)[0]? = some (some v) := by
  rcases hbr : bucketRows Δ rows (bMin Δ rows) with _ | ⟨r, t⟩
  · exact absurd hbr (bucketRows_bMin_ne_nil h)
  · refine ⟨r.open_, ?_⟩
    unfold aggOpenSeries
    rw [List.getElem?_map, gridTimes_zero h]
    simp [hbr]

theorem aggHigh_head {Δ : Nat} {rows : List RawRow} (h : rows ≠ []) :
    ∃ v, (aggHighSeries Δ rows)[0]? = some (some v) := by
  rcases hbr : bucketRows Δ rows (bMin Δ rows) with _ | ⟨r, t⟩
  · exact absurd hbr (bucketRows_bMin_ne_nil h)
  · refine ⟨(t.map RawRow.high).foldl max r.high, ?_⟩
    unfold aggHighSeries
    rw [List.getElem?_map, gridTimes_zero h]
    simp [hbr, aggMax, List.max?]

theorem aggLow_head {Δ : Nat} {rows : List RawRow} (h : rows ≠ []) :
    ∃ v, (aggLowSeries Δ rows)[0]? = some (some v) := by
  rcases hbr : bucketRows Δ rows (bMin Δ rows) with _ | ⟨r, t⟩
  · exact absurd hbr (bucketRows_bMin_ne_nil h)
  · refine ⟨(t.map RawRow.low).foldl min r.low, ?_⟩
    unfold aggLowSeries
    rw [List.getElem?_map, gridTimes_zero h]
    simp [hbr, aggMin, List.min?]

theorem aggClose_head {Δ : Nat} {rows : List RawRow} (h : rows ≠ []) :
    ∃ v, (aggCloseSeries Δ rows)[0]? = some (some v) := by
  rcases hbr : bucketRows Δ rows (bMin Δ rows) with _ | ⟨r, t⟩
  · exact absurd hbr (bucketRows_bMin_ne_nil h)
  · have hne : (r :: t) ≠ [] := by simp
    have hsome := List.getLast?_eq_getLast_of_ne_nil hne
    refine ⟨((r :: t).getLast hne).close, ?_⟩
    unfold aggCloseSeries
    rw [List.getElem?_map, gridTimes_zero h]
    simp [hbr, hsome]

theorem ffill_all_isSome_of_head {s : Series} {v : ℚ}
    (h0 : s[0]? = some (some v)) :
    ∀ x ∈ ffillSeries none s, x.isSome = true := by
  cases s with
  | nil => simp at h0
  | cons a t =>
    simp at h0
    subst h0
    intro x hx
    rcases List.mem_cons.1 (by simpa [ffillSeries] using hx) with h | h
    · rw [h]; rfl
    · exact ffillSeries_isSome (some v) t rfl x h

/-- Every value of the close column of the finished per-symbol frame is
the close of one of the raw rows. -/
theorem close_values_from_rows {Δ : Nat} {rows : List RawRow} {p : ℚ}
    (hp : some p ∈ ffillSeries none (aggCloseSeries Δ rows)) :
    ∃ r ∈ rows, p = r.close := by
  rcases ffillSeries_values none _ _ hp with h | h
  · rcases List.mem_map.1 h with ⟨b, _, hb⟩
    rcases hgl : (bucketRows Δ rows b).getLast? with _ | r
    · rw [hgl] at hb
      simp at hb
    · rw [hgl] at hb
      simp at hb
      have hr := getLast?_mem_own hgl
      exact ⟨r, (List.mem_filter.1 hr).1, hb.symm⟩
  · cases h

/-! ### pct_change access lemmas -/

theorem pct_change_zero {s : Series} (h : s ≠ []) :
    (pct_change s)[0]? = some none := by
  cases s with
  | nil => exact absurd rfl h
  | cons a t => simp [pct_change]

theorem pct_change_length (s : Series) :
    (pct_change s).length = s.length := by
  cases s with
  | nil => rfl
  | cons a t => simp [pct_change, List.length_zipWith]

theorem pct_change_getElem_succ {s : Series} {j : Nat} {x y : Option ℚ}
    (hx : s[j]? = some x) (hy : s[j + 1]? = some y) :
    (pct_change s)[j + 1]? = some (pctChangeCell x y) := by
  cases s with
  | nil => simp at hx
  | cons a t =>
    have ht : t[j]? = some y := by simpa using hy
    show (none :: List.zipWith pctChangeCell (a :: t) t)[j + 1]? = _
    rw [List.getElem?_cons_succ, List.getElem?_zipWith, hx, ht]

theorem zipWith_pcc_isSome :
    ∀ (l₁ l₂ : Series), (∀ x ∈ l₁, x.isSome = true) →
      (∀ v : ℚ, some v ∈ l₁ → v ≠ 0) →
      (∀ x ∈ l₂, x.isSome = true) →
      ∀ x ∈ List.zipWith pctChangeCell l₁ l₂, x.isSome = true := by
  intro l₁
  induction l₁ with
  | nil => intro l₂ _ _ _ x hx; simp at hx
  | cons a t ih =>
    intro l₂ hall hnz hall₂ x hx
    cases l₂ with
    | nil => simp at hx
    | cons b l₂' =>
      rcases List.mem_cons.1 (by simpa using hx) with h | h
      · subst h
        rcases Option.isSome_iff_exists.1 (hall a (by simp)) with ⟨p, rfl⟩
        rcases Option.isSome_iff_exists.1 (hall₂ b (by simp)) with ⟨c, rfl⟩
        have hp : p ≠ 0 := hnz p (by simp)
        simp [pctChangeCell, hp]
      · exact ih l₂' (fun z hz => hall z (by simp [hz]))
          (fun v hv => hnz v (by simp [hv]))
          (fun z hz => hall₂ z (by simp [hz])) x h

theorem getCol_featurize_any {taFeat : DataFrame → List (String × Series)}
    {df : DataFrame} {c : String} {s : Series}
    (hc : List.lookup c df.cols = some s)
    (hany : s.any (fun v => v.isSome) = true) :
    getCol (featurize taFeat df) c = ffillSeries none s := by
  unfold featurize
  rw [getCol_ffillDF]
  have h1 : List.lookup c (df.cols ++ taFeat df) = some s := lookup_append_some hc
  have h2 : List.lookup c
      (dropAllNaCols { df with cols := df.cols ++ taFeat df }).cols = some s := by
    simpa [dropAllNaCols] using lookup_filter_pos _ h1 hany
  have h3 : getCol (dropAllNaCols { df with cols := df.cols ++ taFeat df }) c = s := by
    unfold getCol
    rw [h2]
    rfl
  rw [h3]

theorem gridTimes_pos {Δ : Nat} {rows : List RawRow} (h : rows ≠ []) :
    0 < (gridTimes Δ rows).length := by
  rw [gridTimes_length h]
  exact Nat.succ_pos _

theorem getCol_final_open {Δ : Nat} {rows : List RawRow}
    (taFeat : DataFrame → List (String × Series)) (h : rows ≠ []) :
    getCol (featurize taFeat (perSymbolFrame Δ rows)) "open" =
      ffillSeries none (aggOpenSeries Δ rows) := by
  obtain ⟨v, hv⟩ := aggOpen_head (Δ := Δ) h
  refine getCol_featurize (lookup_psf_open Δ rows)
    (ffill_all_isSome_of_head hv) ?_
  apply List.length_pos.1
  rw [ffillSeries_length]
  simpa [aggOpenSeries] using gridTimes_pos (Δ := Δ) h

theorem getCol_final_high {Δ : Nat} {rows : List RawRow}
    (taFeat : DataFrame → List (String × Series)) (h : rows ≠ []) :
    getCol (featurize taFeat (perSymbolFrame Δ rows)) "high" =
      ffillSeries none (aggHighSeries Δ rows) := by
  obtain ⟨v, hv⟩ := aggHigh_head (Δ := Δ) h
  refine getCol_featurize (lookup_psf_high Δ rows)
    (ffill_all_isSome_of_head hv) ?_
  apply List.length_pos.1
  rw [ffillSeries_length]
  simpa [aggHighSeries] using gridTimes_pos (Δ := Δ) h

theorem getCol_final_low {Δ : Nat} {rows : List RawRow}
    (taFeat : DataFrame → List (String × Series)) (h : rows ≠ []) :
    getCol (featurize taFeat (perSymbolFrame Δ rows)) "low" =
      ffillSeries none (aggLowSeries Δ rows) := by
  obtain ⟨v, hv⟩ := aggLow_head (Δ := Δ) h
  refine getCol_featurize (lookup_psf_low Δ rows)
    (ffill_all_isSome_of_head hv) ?_
  apply List.length_pos.1
  rw [ffillSeries_length]
  simpa [aggLowSeries] using gridTimes_pos (Δ := Δ) h

theorem getCol_final_close {Δ : Nat} {rows : List RawRow}
    (taFeat : DataFrame → List (String × Series)) (h : rows ≠ []) :
    getCol (featurize taFeat (perSymbolFrame Δ rows)) "close" =
      ffillSeries none (aggCloseSeries Δ rows) := by
  obtain ⟨v, hv⟩ := aggClose_head (Δ := Δ) h
  refine getCol_featurize (lookup_psf_close Δ rows)
    (ffill_all_isSome_of_head hv) ?_
  apply List.length_pos.1
  rw [ffillSeries_length]
  simpa [aggCloseSeries] using gridTimes_pos (Δ := Δ) h

theorem getCol_final_volume {Δ : Nat} {rows : List RawRow}
    (taFeat : DataFrame → List (String × Series)) (h : rows ≠ []) :
    getCol (featurize taFeat (perSymbolFrame Δ rows)) "volume" =
      aggVolumeSeries Δ rows := by
  have hid : ffillSeries none (aggVolumeSeries Δ rows) = aggVolumeSeries Δ rows :=
    ffillSeries_id_of_isSome none _ (aggVolumeSeries_isSome Δ rows)
  have hne : ffillSeries none (aggVolumeSeries Δ rows) ≠ [] := by
    apply List.length_pos.1
    rw [ffillSeries_length]
    simpa [aggVolumeSeries] using gridTimes_pos (Δ := Δ) h
  have hall : ∀ x ∈ ffillSeries none (aggVolumeSeries Δ rows), x.isSome = true := by
    rw [hid]
    exact aggVolumeSeries_isSome Δ rows
  have h2 : getCol (featurize taFeat (perSymbolFrame Δ rows)) "volume" =
      ffillSeries none (aggVolumeSeries Δ rows) :=
    getCol_featurize (lookup_psf_volume Δ rows) hall hne
  rw [h2, hid]

/-- The shape of the finished close column: an all-value series whose
values are raw closes. -/
theorem close_col_shape {Δ : Nat} {rows : List RawRow} (h : rows ≠ []) :
    ∃ v t, ffillSeries none (aggCloseSeries Δ rows) = some v :: t := by
  obtain ⟨v, hv⟩ := aggClose_head (Δ := Δ) h
  rcases hs : aggCloseSeries Δ rows with _ | ⟨a, t⟩
  · rw [hs] at hv
    simp at hv
  · rw [hs] at hv
    simp at hv
    subst hv
    exact ⟨v, ffillSeries (some v) t, rfl⟩

theorem getCol_final_ret {Δ : Nat} {rows : List RawRow}
    (taFeat : DataFrame → List (String × Series)) (h : rows ≠ [])
    (hlen2 : 2 ≤ (gridTimes Δ rows).length)
    (hnz : ∀ r ∈ rows, r.close ≠ 0) :
    getCol (featurize taFeat (perSymbolFrame Δ rows)) "ret" =
      pct_change (ffillSeries none (aggCloseSeries Δ rows)) := by
  obtain ⟨v0, t0, hshape⟩ := close_col_shape (Δ := Δ) h
  have hclose_all : ∀ x ∈ ffillSeries none (aggCloseSeries Δ rows), x.isSome = true := by
    obtain ⟨w, hw⟩ := aggClose_head (Δ := Δ) h
    exact ffill_all_isSome_of_head hw
  have hclose_nz : ∀ v : ℚ, some v ∈ ffillSeries none (aggCloseSeries Δ rows) → v ≠ 0 := by
    intro v hv
    obtain ⟨r, hr, rfl⟩ := close_values_from_rows hv
    exact hnz r hr
  have htail_all : ∀ x ∈ List.zipWith pctChangeCell
      (ffillSeries none (aggCloseSeries Δ rows))
      (ffillSeries none (aggCloseSeries Δ rows)).tail, x.isSome = true :=
    zipWith_pcc_isSome _ _ hclose_all hclose_nz
      (fun x hx => hclose_all x (List.mem_of_mem_tail hx))
  have hpc : pct_change (ffillSeries none (aggCloseSeries Δ rows)) =
      none :: List.zipWith pctChangeCell
        (ffillSeries none (aggCloseSeries Δ rows))
        (ffillSeries none (aggCloseSeries Δ rows)).tail := by
    rw [hshape]
    rfl
  have hlen' : 2 ≤ (ffillSeries none (aggCloseSeries Δ rows)).length := by
    rw [ffillSeries_length]
    simpa [aggCloseSeries] using hlen2
  have hany : (pct_change (ffillSeries none (aggCloseSeries Δ rows))).any
      (fun v => v.isSome) = true := by
    rw [hpc]
    rcases hz : List.zipWith pctChangeCell
        (ffillSeries none (aggCloseSeries Δ rows))
        (ffillSeries none (aggCloseSeries Δ rows)).tail with _ | ⟨b, tb⟩
    · exfalso
      have := congrArg List.length hz
      rw [List.length_zipWith, List.length_tail] at this
      simp at this
      omega
    · have hb : b.isSome = true := htail_all b (by rw [hz]; simp)
      simp [List.any_cons, hb]
  have hmain : getCol (featurize taFeat (perSymbolFrame Δ rows)) "ret" =
      ffillSeries none (pct_change (ffillSeries none (aggCloseSeries Δ rows))) :=
    getCol_featurize_any (lookup_psf_ret Δ rows) hany
  rw [hmain, hpc]
  show ffillSeries none (none :: _) = _
  have : ffillSeries none (none :: List.zipWith pctChangeCell
      (ffillSeries none (aggCloseSeries Δ rows))
      (ffillSeries none (aggCloseSeries Δ rows)).tail) =
      none :: ffillSeries none (List.zipWith pctChangeCell
        (ffillSeries none (aggCloseSeries Δ rows))
        (ffillSeries none (aggCloseSeries Δ rows)).tail) := rfl
  rw [this, ffillSeries_id_of_isSome none _ htail_all]

theorem agg_gap_none {Δ : Nat} {rows : List RawRow} {i : Nat} (h : rows ≠ [])
    (hi : i < (gridTimes Δ rows).length)
    (hgap : bucketRows Δ rows (bMin Δ rows + i * Δ) = []) :
    (aggOpenSeries Δ rows)[i]? = some none ∧
    (aggHighSeries Δ rows)[i]? = some none ∧
    (aggLowSeries Δ rows)[i]? = some none ∧
    (aggCloseSeries Δ rows)[i]? = some none ∧
    (aggVolumeSeries Δ rows)[i]? = some (some 0) := by
  have hg := gridTimes_getElem? h hi
  refine ⟨?_, ?_, ?_, ?_, ?_⟩ <;>
    simp [aggOpenSeries, aggHighSeries, aggLowSeries, aggCloseSeries,
      aggVolumeSeries, List.getElem?_map, hg, hgap, aggMax, aggMin,
      List.max?, List.min?]

theorem load_data_symbol {store : String → Option (List RawRow)}
    {taFeat : DataFrame → List (String × Series)}
    {symbol : String} {start end_ Δ : Nat} {res : LoadResult}
    (h : load_data store taFeat symbol start end_ Δ = .ok res) :
    res.panel.symbol = symbol := by
  rcases load_data_ok_cases h with ⟨raw, _, ⟨rfl, _⟩ | ⟨rfl, _⟩⟩ <;> rfl

theorem mem_rawFiltered {start end_ : Nat} {raw : List RawRow} {r : RawRow}
    (h : r ∈ rawFiltered start end_ raw) : start ≤ r.time ∧ r.time < end_ := by
  have h2 := (List.mem_filter.1 h).2
  simpa using h2

theorem bucketOf_le (Δ t : Nat) : bucketOf Δ t ≤ t :=
  Nat.div_mul_le_self t Δ

theorem bMax_lt_end {Δ start end_ : Nat} {raw : List RawRow}
    (h : rawFiltered start end_ raw ≠ []) :
    bMax Δ (rawFiltered start end_ raw) < end_ := by
  have hmem := bMax_mem (Δ := Δ) h
  rcases List.mem_map.1 hmem with ⟨r, hr, hb⟩
  have h1 : bucketOf Δ r.time ≤ r.time := bucketOf_le Δ r.time
  have h2 := (mem_rawFiltered hr).2
  omega

theorem except_bind_error {α β : Type} (e : String)
    (f : α → Except String β) :
    (Except.error e : Except String α) >>= f = .error e := rfl

theorem except_bind_ok {α β : Type} (a : α) (f : α → Except String β) :
    (Except.ok a : Except String α) >>= f = f a := rfl

theorem fanOut_error {store : String → Option (List RawRow)}
    {taFeat : DataFrame → List (String × Series)}
    {symbols : List String} {start end_ Δ : Nat} {s : String}
    (hs : s ∈ symbols) (hmiss : store s = none) :
    ∃ e, fanOut store taFeat symbols start end_ Δ = .error e := by
  induction symbols with
  | nil => simp at hs
  | cons a t ih =>
    rcases List.mem_cons.1 hs with rfl | h
    · refine ⟨"FileNotFoundError: " ++ s ++ ".csv", ?_⟩
      show (load_data store taFeat s start end_ Δ >>= fun r =>
        fanOut store taFeat t start end_ Δ >>= fun ps => pure (r.panel :: ps)) = _
      rw [load_data_missing hmiss, except_bind_error]
    · cases hld : load_data store taFeat a start end_ Δ with
      | error e =>
        refine ⟨e, ?_⟩
        show (load_data store taFeat a start end_ Δ >>= fun r =>
          fanOut store taFeat t start end_ Δ >>= fun ps => pure (r.panel :: ps)) = _
        rw [hld, except_bind_error]
      | ok r =>
        obtain ⟨e, he⟩ := ih h
        refine ⟨e, ?_⟩
        show (load_data store taFeat a start end_ Δ >>= fun r =>
          fanOut store taFeat t start end_ Δ >>= fun ps => pure (r.panel :: ps)) = _
        rw [hld, except_bind_ok, he, except_bind_error]

theorem fanOut_ok_mem {store : String → Option (List RawRow)}
    {taFeat : DataFrame → List (String × Series)}
    {symbols : List String} {start end_ Δ : Nat} {panels : List SymbolPanel}
    (h : fanOut store taFeat symbols start end_ Δ = .ok panels) :
    ∀ p ∈ panels, ∃ s ∈ symbols, ∃ res,
      load_data store taFeat s start end_ Δ = .ok res ∧ res.panel = p := by
  induction symbols generalizing panels with
  | nil =>
    cases h
    simp
  | cons a t ih =>
    have h' : (load_data store taFeat a start end_ Δ >>= fun r =>
        fanOut store taFeat t start end_ Δ >>= fun ps =>
          pure (r.panel :: ps)) = .ok panels := h
    cases hld : load_data store taFeat a start end_ Δ with
    | error e => rw [hld, except_bind_error] at h'; cases h'
    | ok r =>
      rw [hld, except_bind_ok] at h'
      cases hfan : fanOut store taFeat t start end_ Δ with
      | error e => rw [hfan, except_bind_error] at h'; cases h'
      | ok ps =>
        rw [hfan, except_bind_ok] at h'
        cases h'
        intro p hp
        rcases List.mem_cons.1 hp with rfl | hmem
        · exact ⟨a, by simp, r, hld, rfl⟩
        · rcases ih hfan p hmem with ⟨s, hs, res, hres, hpanel⟩
          exact ⟨s, by simp [hs], res, hres, hpanel⟩

/-! ### Loader inversion lemmas -/

theorem marketFromPanels_ok {start end_ : Nat} {panels : List SymbolPanel}
    {out : List MRow} (h : marketFromPanels start end_ panels = .ok out) :
    allPanelsEmpty panels = false ∧
    out = (panels.map panelMRows).flatten.filter
      (fun r => decide (start ≤ r.time) && decide (r.time ≤ end_)) := by
  unfold marketFromPanels at h
  by_cases h1 : allPanelsEmpty panels = true
  · rw [if_pos h1] at h
    cases h
  · rw [if_neg h1] at h
    by_cases h2 : (["open", "high", "low", "close", "volume"].all
        (unionCols panels).contains) = true
    · rw [if_pos h2] at h
      cases h
      exact ⟨by simpa using h1, rfl⟩
    · rw [if_neg h2] at h
      cases h

theorem load_market_data_ok_shape {store : String → Option (List RawRow)}
    {taFeat : DataFrame → List (String × Series)}
    {symbols : List String} {start end_ lookback Δ : Nat} {out : List MRow}
    (hok : load_market_data store taFeat symbols start end_ lookback Δ = .ok out) :
    ∃ panels, fanOut store taFeat symbols (start - lookback) end_ Δ = .ok panels ∧
      allPanelsEmpty panels = false ∧
      out = (panels.map panelMRows).flatten.filter
        (fun r => decide (start ≤ r.time) && decide (r.time ≤ end_)) := by
  unfold load_market_data at hok
  cases hfan : fanOut store taFeat symbols (start - lookback) end_ Δ with
  | error e =>
    rw [hfan] at hok
    cases hok
  | ok panels =>
    rw [hfan] at hok
    have h : marketFromPanels start end_ panels = .ok out := hok
    exact ⟨panels, rfl, marketFromPanels_ok h⟩

theorem featViewFromPanels_ok {start end_ : Nat} {panels : List SymbolPanel}
    {V : FeatView} (h : featViewFromPanels start end_ panels = .ok V) :
    allPanelsEmpty panels = false ∧
    V.cols = featKept panels ∧
    V.rows = (panels.map (panelFeatRows (featKept panels))).flatten.filter
      (fun r => decide (start ≤ r.1) && decide (r.1 ≤ end_)) := by
  unfold featViewFromPanels at h
  by_cases h1 : allPanelsEmpty panels = true
  · rw [if_pos h1] at h
    cases h
  · rw [if_neg h1] at h
    by_cases h2 : (["open", "high", "low", "close", "volume"].all
        (unionCols panels).contains) = true
    · rw [if_pos h2] at h
      by_cases h3 : (["trend_psar_down", "trend_psar_up"].all
          ((unionCols panels).filter
            (fun c => !(["open", "high", "low", "close", "volume"] :
              List String).contains c)).contains) = true
      · rw [if_pos h3] at h
        cases h
        exact ⟨by simpa using h1, rfl, rfl⟩
      · rw [if_neg h3] at h
        cases h
    · rw [if_neg h2] at h
      cases h

theorem load_features_ok_shape {store : String → Option (List RawRow)}
    {taFeat : DataFrame → List (String × Series)}
    {symbols : List String} {start end_ lookback Δ : Nat} {V : FeatView}
    (hok : load_features store taFeat symbols start end_ lookback Δ = .ok V) :
    ∃ panels, fanOut store taFeat symbols (start - lookback) end_ Δ = .ok panels ∧
      allPanelsEmpty panels = false ∧
      V.cols = featKept panels ∧
      V.rows = (panels.map (panelFeatRows (featKept panels))).flatten.filter
        (fun r => decide (start ≤ r.1) && decide (r.1 ≤ end_)) := by
  unfold load_features at hok
  cases hfan : fanOut store taFeat symbols (start - lookback) end_ Δ with
  | error e =>
    rw [hfan] at hok
    cases hok
  | ok panels =>
    rw [hfan] at hok
    have h : featViewFromPanels start end_ panels = .ok V := hok
    exact ⟨panels, rfl, featViewFromPanels_ok h⟩

theorem retTableFromPanels_ok {panels : List SymbolPanel} {T : RetTable}
    (h : retTableFromPanels panels = .ok T) :
    allPanelsEmpty panels = false ∧
    (unionCols panels).contains "ret" = true ∧
    ((retEntries panels).map (fun e => (e.1, e.2.1))).Nodup ∧
    T = addCash (pivotRet panels) := by
  unfold retTableFromPanels at h
  by_cases h1 : allPanelsEmpty panels = true
  · rw [if_pos h1] at h
    cases h
  · rw [if_neg h1] at h
    by_cases h2 : ((unionCols panels).contains "ret") = true
    · rw [if_neg (by rw [h2]; decide :
        ¬ (!(unionCols panels).contains "ret") = true)] at h
      by_cases h3 : (((retEntries panels).map
          (fun e => (e.1, e.2.1))).Nodup : Prop)
      · rw [if_neg (by rw [decide_eq_true h3]; decide :
          ¬ (!decide (((retEntries panels).map
            (fun e => (e.1, e.2.1))).Nodup)) = true)] at h
        cases h
        exact ⟨by simpa using h1, h2, h3, rfl⟩
      · rw [if_pos (by rw [decide_eq_false h3]; decide :
          (!decide (((retEntries panels).map
            (fun e => (e.1, e.2.1))).Nodup)) = true)] at h
        cases h
    · rw [if_pos (by rw [Bool.not_eq_true] at h2; rw [h2]; decide :
        (!(unionCols panels).contains "ret") = true)] at h
      cases h

theorem retPipeline_ok_shape {store : String → Option (List RawRow)}
    {taFeat : DataFrame → List (String × Series)}
    {symbols : List String} {start end_ lookback Δ : Nat} {T : RetTable}
    (hok : retPipeline store taFeat symbols start end_ lookback Δ = .ok T) :
    ∃ panels, fanOut store taFeat symbols (start - lookback) end_ Δ = .ok panels ∧
      allPanelsEmpty panels = false ∧
      (unionCols panels).contains "ret" = true ∧
      ((retEntries panels).map (fun e => (e.1, e.2.1))).Nodup ∧
      T = addCash (pivotRet panels) := by
  unfold retPipeline at hok
  cases hfan : fanOut store taFeat symbols (start - lookback) end_ Δ with
  | error e =>
    rw [hfan] at hok
    cases hok
  | ok panels =>
    rw [hfan] at hok
    have h : retTableFromPanels panels = .ok T := hok
    exact ⟨panels, rfl, retTableFromPanels_ok h⟩

theorem load_ret_ok_shape {store : String → Option (List RawRow)}
    {taFeat : DataFrame → List (String × Series)}
    {symbols : List String} {start end_ lookback Δ : Nat} {T : RetTable}
    (hok : load_ret store taFeat symbols start end_ lookback Δ = .ok T) :
    ∃ T₀, retPipeline store taFeat symbols start end_ lookback Δ = .ok T₀ ∧
      T = clipRet start end_ T₀ := by
  unfold load_ret at hok
  cases hpipe : retPipeline store taFeat symbols start end_ lookback Δ with
  | error e =>
    rw [hpipe] at hok
    cases hok
  | ok T₀ =>
    rw [hpipe] at hok
    cases hok
    exact ⟨T₀, rfl, rfl⟩

theorem load_cov_ok_shape {store : String → Option (List RawRow)}
    {taFeat : DataFrame → List (String × Series)}
    {symbols : List String} {start end_ w lookback Δ : Nat} {CV : CovView}
    (hok : load_cov store taFeat symbols start end_ w lookback Δ = .ok CV) :
    ∃ T, retPipeline store taFeat symbols start end_ lookback Δ = .ok T ∧
      CV.syms = T.syms ∧
      CV.rows = ((List.range T.times.length).filterMap fun i =>
          (rollingCovAt T w i).map (fun M => (T.times.getD i 0, M))).filter
        (fun r => decide (start ≤ r.1) && decide (r.1 ≤ end_)) := by
  unfold load_cov at hok
  cases hpipe : retPipeline store taFeat symbols start end_ lookback Δ with
  | error e =>
    rw [hpipe] at hok
    cases hok
  | ok T =>
    rw [hpipe] at hok
    cases hok
    exact ⟨T, rfl, rfl, rfl⟩

/-! ### Pivot / cash / clip lemmas -/

theorem pivotRet_vals_length (panels : List SymbolPanel) :
    (pivotRet panels).vals.length = (pivotRet panels).times.length := by
  simp [pivotRet]

theorem pivot_row_length {panels : List SymbolPanel} {row : List ℚ}
    (h : row ∈ (pivotRet panels).vals) :
    row.length = (pivotRet panels).syms.length := by
  rcases List.mem_map.1 h with ⟨t, _, rfl⟩
  simp [pivotRet]

theorem addCash_times (T : RetTable) : (addCash T).times = T.times := by
  unfold addCash
  split <;> rfl

theorem addCash_vals_length (T : RetTable) :
    (addCash T).vals.length = T.vals.length := by
  unfold addCash
  split <;> simp

theorem addCash_cash_mem (T : RetTable) : "cash" ∈ (addCash T).syms := by
  unfold addCash
  split
  next h => simpa using h
  next h => simp

theorem clipRet_syms (start end_ : Nat) (T : RetTable) :
    (clipRet start end_ T).syms = T.syms := rfl

theorem zip_unzip_self {α β : Type} (l : List (α × β)) :
    (l.map Prod.fst).zip (l.map Prod.snd) = l := by
  rw [List.zip_map']
  simp

theorem clipRet_zip_subset {start end_ : Nat} {T : RetTable}
    {p : Nat × List ℚ}
    (hp : p ∈ (clipRet start end_ T).times.zip (clipRet start end_ T).vals) :
    p ∈ T.times.zip T.vals := by
  unfold clipRet at hp
  rw [zip_unzip_self] at hp
  exact (List.mem_filter.1 hp).1

theorem zip_self_map {α β : Type} (l : List α) (f : α → β) :
    l.zip (l.map f) = l.map (fun x => (x, f x)) := by
  have h := List.zip_map' (fun x : α => x) f l
  simpa using h

theorem mem_zip_self_map {α β : Type} {l : List α} {f : α → β}
    {p : α × β} (hp : p ∈ l.zip (l.map f)) : p.2 = f p.1 := by
  rw [zip_self_map] at hp
  rcases List.mem_map.1 hp with ⟨x, _, rfl⟩
  rfl

theorem zip_getElem? {α β : Type} {l₁ : List α} {l₂ : List β} {j : Nat}
    {a : α} {b : β} (h1 : l₁[j]? = some a) (h2 : l₂[j]? = some b) :
    (l₁.zip l₂)[j]? = some (a, b) := by
  have hz : l₁.zip l₂ = List.zipWith Prod.mk l₁ l₂ := rfl
  rw [hz, List.getElem?_zipWith, h1, h2]

theorem zip_map_right {α β γ : Type} {l : List α} {m : List β} {g : β → γ}
    {p : α × γ} (hp : p ∈ l.zip (m.map g)) :
    ∃ v, (p.1, v) ∈ l.zip m ∧ p.2 = g v := by
  induction l generalizing m with
  | nil => simp at hp
  | cons a l' ih =>
    cases m with
    | nil => simp at hp
    | cons b m' =>
      rcases List.mem_cons.1 hp with h | h
      · exact ⟨b, by simp [h], by rw [h]⟩
      · rcases ih h with ⟨v, hv, he⟩
        exact ⟨v, List.mem_cons_of_mem _ hv, he⟩

theorem mem_pivot_zip {panels : List SymbolPanel} {tv : Nat × List ℚ}
    (h : tv ∈ (pivotRet panels).times.zip (pivotRet panels).vals) :
    tv.2 = (pivotSyms panels).map
      (fun s => pivotCell (retEntries panels) tv.1 s) := by
  have hv : (pivotRet panels).vals = (pivotRet panels).times.map
      (fun t => (pivotSyms panels).map
        (fun s => pivotCell (retEntries panels) t s)) := rfl
  rw [hv] at h
  exact mem_zip_self_map h

theorem pivotCell_zero {entries : List (Nat × String × Option ℚ)}
    {t : Nat} {s : String}
    (h : ∀ q ∈ entries, ¬(q.1 = t ∧ q.2.1 = s) ∨ q.2.2 = none) :
    pivotCell entries t s = 0 := by
  unfold pivotCell
  rcases hf : entries.find? (fun e => decide (e.1 = t) && decide (e.2.1 = s)) with _ | e
  · rw [hf]
    rfl
  · have hmem : e ∈ entries := List.mem_of_find?_eq_some hf
    have hp := List.find?_some hf
    simp at hp
    rcases h e hmem with hne | hnone
    · exact absurd hp hne
    · rw [hf]
      show (e.2.2).getD 0 = 0
      rw [hnone]
      rfl

/-- The value of any cell of the cash-extended pivot table: 0 in the cash
column, the `fillna(0)`-filled pivot cell elsewhere. -/
theorem addCash_cell {panels : List SymbolPanel} {tv : Nat × List ℚ}
    (h : tv ∈ (addCash (pivotRet panels)).times.zip
      (addCash (pivotRet panels)).vals)
    {j : Nat} (hj : j < (addCash (pivotRet panels)).syms.length) :
    tv.2.getD j 0 =
      if (addCash (pivotRet panels)).syms.getD j "" = "cash" then 0
      else pivotCell (retEntries panels) tv.1
        ((addCash (pivotRet panels)).syms.getD j "") := by
  by_cases hc : (pivotRet panels).syms.contains "cash" = true
  · have haddsyms : (addCash (pivotRet panels)).syms = (pivotRet panels).syms := by
      unfold addCash
      rw [if_pos hc]
    have haddtimes : (addCash (pivotRet panels)).times = (pivotRet panels).times := by
      unfold addCash
      rw [if_pos hc]
    have haddvals : (addCash (pivotRet panels)).vals =
        (pivotRet panels).vals.map (fun row =>
          ((pivotRet panels).syms.zip row).map
            (fun p => if p.1 == "cash" then 0 else p.2)) := by
      unfold addCash
      rw [if_pos hc]
    rw [haddsyms] at hj ⊢
    rw [haddtimes, haddvals] at h
    obtain ⟨row, hrow, htv2⟩ := zip_map_right h
    have hrowval : row = (pivotSyms panels).map
        (fun s => pivotCell (retEntries panels) tv.1 s) :=
      mem_pivot_zip hrow
    have hsymsj : (pivotRet panels).syms[j]? =
        some ((pivotRet panels).syms.getD j "") := by
      rw [List.getD_eq_getElem _ _ hj]
      exact List.getElem?_eq_getElem hj
    have hrowj : row[j]? = some (pivotCell (retEntries panels) tv.1
        ((pivotRet panels).syms.getD j "")) := by
      rw [hrowval, List.getElem?_map]
      have : (pivotSyms panels)[j]? = some ((pivotRet panels).syms.getD j "") := hsymsj
      rw [this]
      rfl
    rw [htv2, getD_eq_getElem?, List.getElem?_map, zip_getElem? hsymsj hrowj]
    by_cases hcash : (pivotRet panels).syms.getD j "" = "cash"
    · simp [hcash]
    · simp [hcash]
  · have haddsyms : (addCash (pivotRet panels)).syms =
        (pivotRet panels).syms ++ ["cash"] := by
      unfold addCash
      rw [if_neg hc]
    have haddtimes : (addCash (pivotRet panels)).times = (pivotRet panels).times := by
      unfold addCash
      rw [if_neg hc]
    have haddvals : (addCash (pivotRet panels)).vals =
        (pivotRet panels).vals.map (fun row => row ++ [0]) := by
      unfold addCash
      rw [if_neg hc]
    rw [haddsyms] at hj ⊢
    rw [haddtimes, haddvals] at h
    obtain ⟨row, hrow, htv2⟩ := zip_map_right h
    have hrowval : row = (pivotSyms panels).map
        (fun s => pivotCell (retEntries panels) tv.1 s) :=
      mem_pivot_zip hrow
    have hrowlen : row.length = (pivotRet panels).syms.length := by
      rw [hrowval]
      simp [pivotRet]
    rw [List.length_append] at hj
    simp at hj
    rcases Nat.lt_or_ge j (pivotRet panels).syms.length with hjlt | hjge
    · have hgetDj : ((pivotRet panels).syms ++ ["cash"]).getD j "" =
          (pivotRet panels).syms.getD j "" :=
        List.getD_append _ _ _ _ hjlt
      have hnotcash : (pivotRet panels).syms.getD j "" ≠ "cash" := by
        intro heq
        have hmem : (pivotRet panels).syms.getD j "" ∈ (pivotRet panels).syms := by
          rw [List.getD_eq_getElem _ _ hjlt]
          exact List.getElem_mem hjlt
        rw [heq] at hmem
        exact hc (by simpa using hmem)
      rw [hgetDj, if_neg hnotcash, htv2,
        List.getD_append _ _ _ _ (by omega : j < row.length), hrowval]
      rw [getD_eq_getElem?, List.getElem?_map]
      have hsymsj : (pivotSyms panels)[j]? =
          some ((pivotRet panels).syms.getD j "") := by
        rw [List.getD_eq_getElem _ _ hjlt]
        exact List.getElem?_eq_getElem hjlt
      rw [hsymsj]
      rfl
    · have hjeq : j = (pivotRet panels).syms.length := by omega
      subst hjeq
      have hgetDj : ((pivotRet panels).syms ++ ["cash"]).getD
          (pivotRet panels).syms.length "" = "cash" := by
        rw [getD_eq_getElem?, List.getElem?_append]
        rw [if_neg (by omega)]
        simp
      rw [hgetDj, if_pos rfl, htv2, getD_eq_getElem?, List.getElem?_append]
      rw [if_neg (by omega : ¬ (pivotRet panels).syms.length < row.length)]
      rw [hrowlen]
      simp

theorem fanOut_empty_symbol {store : String → Option (List RawRow)}
    {taFeat : DataFrame → List (String × Series)}
    {symbols : List String} {extStart end_ Δ : Nat} {s : String}
    {panels : List SymbolPanel}
    (hfan : fanOut store taFeat symbols extStart end_ Δ = .ok panels)
    (hempty : load_data store taFeat s extStart end_ Δ =
      .ok ⟨⟨s, emptyDF⟩, true⟩) :
    ∀ p ∈ panels, p.symbol = s → p.df = emptyDF := by
  intro p hp hps
  rcases fanOut_ok_mem hfan p hp with ⟨s', hs', res, hres, rfl⟩
  have hsym : res.panel.symbol = s' := load_data_symbol hres
  have hs'' : s' = s := by rw [← hsym, hps]
  rw [hs'', hempty] at hres
  cases hres
  rfl

theorem panelMRows_symbol {p : SymbolPanel} {r : MRow}
    (h : r ∈ panelMRows p) : r.symbol = p.symbol := by
  rcases List.mem_map.1 h with ⟨i, _, rfl⟩
  rfl

theorem panelFeatRows_symbol {kept : List String} {p : SymbolPanel}
    {r : Nat × String × List (Option ℚ)}
    (h : r ∈ panelFeatRows kept p) : r.2.1 = p.symbol := by
  rcases List.mem_map.1 h with ⟨i, _, rfl⟩
  rfl

theorem panelRetRows_symbol {p : SymbolPanel} {e : Nat × String × Option ℚ}
    (h : e ∈ panelRetRows p) : e.2.1 = p.symbol := by
  rcases List.mem_map.1 h with ⟨i, _, rfl⟩
  rfl

theorem panel_empty_no_mrows {p : SymbolPanel} (h : p.df = emptyDF) :
    panelMRows p = [] := by
  unfold panelMRows
  rw [h]
  rfl

theorem panel_empty_no_featrows {kept : List String} {p : SymbolPanel}
    (h : p.df = emptyDF) : panelFeatRows kept p = [] := by
  unfold panelFeatRows
  rw [h]
  rfl

theorem panel_empty_no_retrows {p : SymbolPanel} (h : p.df = emptyDF) :
    panelRetRows p = [] := by
  unfold panelRetRows
  rw [h]
  rfl

theorem mem_pivotSyms {panels : List SymbolPanel} {s : String}
    (h : s ∈ pivotSyms panels) :
    ∃ p ∈ panels, ∃ e ∈ panelRetRows p, e.2.1 = s := by
  unfold pivotSyms at h
  rw [mem_sortBy] at h
  rw [mem_uniqueList] at h
  rcases List.mem_map.1 h with ⟨e, he, rfl⟩
  rcases List.mem_flatten.1 he with ⟨rows, hrows, herows⟩
  rcases List.mem_map.1 hrows with ⟨p, hp, rfl⟩
  exact ⟨p, hp, e, herows, rfl⟩

theorem mem_addCash_syms {P : RetTable} {s : String}
    (h : s ∈ (addCash P).syms) : s ∈ P.syms ∨ s = "cash" := by
  unfold addCash at h
  split at h
  · exact Or.inl h
  · rcases List.mem_append.1 h with h' | h'
    · exact Or.inl h'
    · simp at h'
      exact Or.inr h'

/-! ### Batch-completion machinery -/

theorem fanOut_ok_of_all {store : String → Option (List RawRow)}
    {taFeat : DataFrame → List (String × Series)}
    {symbols : List String} {start end_ Δ : Nat}
    (h : ∀ s ∈ symbols, ∃ res, load_data store taFeat s start end_ Δ = .ok res) :
    ∃ panels, fanOut store taFeat symbols start end_ Δ = .ok panels := by
  induction symbols with
  | nil => exact ⟨[], rfl⟩
  | cons a t ih =>
    obtain ⟨r, hr⟩ := h a (by simp)
    obtain ⟨ps, hps⟩ := ih (fun s hs => h s (by simp [hs]))
    refine ⟨r.panel :: ps, ?_⟩
    show (load_data store taFeat a start end_ Δ >>= fun r =>
      fanOut store taFeat t start end_ Δ >>= fun ps => pure (r.panel :: ps)) = _
    rw [hr, except_bind_ok, hps, except_bind_ok]
    rfl

theorem fanOut_symbols {store : String → Option (List RawRow)}
    {taFeat : DataFrame → List (String × Series)} :
    ∀ {symbols : List String} {start end_ Δ : Nat} {panels : List SymbolPanel},
    fanOut store taFeat symbols start end_ Δ = .ok panels →
    panels.map SymbolPanel.symbol = symbols := by
  intro symbols
  induction symbols with
  | nil =>
    intro start end_ Δ panels h
    cases h
    rfl
  | cons a t ih =>
    intro start end_ Δ panels h
    have h' : (load_data store taFeat a start end_ Δ >>= fun r =>
        fanOut store taFeat t start end_ Δ >>= fun ps =>
          pure (r.panel :: ps)) = .ok panels := h
    cases hld : load_data store taFeat a start end_ Δ with
    | error e => rw [hld, except_bind_error] at h'; cases h'
    | ok r =>
      rw [hld, except_bind_ok] at h'
      cases hfan : fanOut store taFeat t start end_ Δ with
      | error e => rw [hfan, except_bind_error] at h'; cases h'
      | ok ps =>
        rw [hfan, except_bind_ok] at h'
        cases h'
        simp [load_data_symbol hld, ih hfan]

theorem fanOut_panel_of_mem {store : String → Option (List RawRow)}
    {taFeat : DataFrame → List (String × Series)} :
    ∀ {symbols : List String} {start end_ Δ : Nat} {panels : List SymbolPanel}
    {s : String},
    fanOut store taFeat symbols start end_ Δ = .ok panels → s ∈ symbols →
    ∃ res, load_data store taFeat s start end_ Δ = .ok res ∧
      res.panel ∈ panels := by
  intro symbols
  induction symbols with
  | nil => intro _ _ _ _ _ _ hs; simp at hs
  | cons a t ih =>
    intro start end_ Δ panels s h hs
    have h' : (load_data store taFeat a start end_ Δ >>= fun r =>
        fanOut store taFeat t start end_ Δ >>= fun ps =>
          pure (r.panel :: ps)) = .ok panels := h
    cases hld : load_data store taFeat a start end_ Δ with
    | error e => rw [hld, except_bind_error] at h'; cases h'
    | ok r =>
      rw [hld, except_bind_ok] at h'
      cases hfan : fanOut store taFeat t start end_ Δ with
      | error e => rw [hfan, except_bind_error] at h'; cases h'
      | ok ps =>
        rw [hfan, except_bind_ok] at h'
        cases h'
        rcases List.mem_cons.1 hs with rfl | hmem
        · exact ⟨r, hld, by simp⟩
        · rcases ih hfan hmem with ⟨res, hres, hp⟩
          exact ⟨res, hres, by simp [hp]⟩

theorem gridTimes_nodup {Δ : Nat} (hΔ : 0 < Δ) (rows : List RawRow) :
    (gridTimes Δ rows).Nodup := by
  by_cases h : rows = []
  · subst h
    simp [gridTimes]
  · rw [gridTimes_eq h]
    refine List.Nodup.map ?_ (List.nodup_range _)
    intro a b hab
    simp only at hab
    have h2 : a * Δ = b * Δ := by omega
    exact Nat.eq_of_mul_eq_mul_right hΔ h2

theorem panelRetRows_keys (p : SymbolPanel) :
    (panelRetRows p).map (fun e => (e.1, e.2.1)) =
      (List.range p.df.index.length).map
        (fun i => (p.df.index.getD i 0, p.symbol)) := by
  unfold panelRetRows
  rw [List.map_map]
  rfl

theorem panel_keys_nodup {Δ : Nat} (hΔ : 0 < Δ)
    {store : String → Option (List RawRow)}
    {taFeat : DataFrame → List (String × Series)}
    {s : String} {start end_ : Nat} {res : LoadResult}
    (hres : load_data store taFeat s start end_ Δ = .ok res) :
    ((panelRetRows res.panel).map (fun e => (e.1, e.2.1))).Nodup := by
  rcases load_data_ok_cases hres with ⟨raw, _, ⟨hres', _⟩ | ⟨hres', hlen⟩⟩
  · rw [hres']
    simp [panelRetRows, emptyDF]
  · rw [hres', panelRetRows_keys]
    set rows := rawFiltered start end_ raw with hrows
    have hrne : rows ≠ [] := by
      intro hempty
      rw [hempty] at hlen
      simp [gridTimes] at hlen
    have hidx : (SymbolPanel.mk s
        (featurize taFeat (perSymbolFrame Δ rows))).df.index = gridTimes Δ rows := rfl
    rw [hidx]
    have hcongr : ∀ i ∈ List.range (gridTimes Δ rows).length,
        ((gridTimes Δ rows).getD i 0,
          (SymbolPanel.mk s (featurize taFeat (perSymbolFrame Δ rows))).symbol) =
          (bMin Δ rows + i * Δ, s) := by
      intro i hi
      have hi' := List.mem_range.1 hi
      rw [getD_eq_getElem?, gridTimes_getElem? hrne hi']
      rfl
    rw [List.map_congr_left hcongr]
    refine List.Nodup.map ?_ (List.nodup_range _)
    intro a b hab
    simp only [Prod.mk.injEq] at hab
    have h2 : a * Δ = b * Δ := by omega
    exact Nat.eq_of_mul_eq_mul_right hΔ h2

theorem entries_keys_nodup {store : String → Option (List RawRow)}
    {taFeat : DataFrame → List (String × Series)}
    {symbols : List String} {start end_ Δ : Nat} {panels : List SymbolPanel}
    (hΔ : 0 < Δ) (hnd : symbols.Nodup)
    (hfan : fanOut store taFeat symbols start end_ Δ = .ok panels) :
    ((retEntries panels).map (fun e => (e.1, e.2.1))).Nodup := by
  unfold retEntries
  rw [List.map_flatten, List.map_map, List.nodup_flatten]
  constructor
  · intro keys hkeys
    rcases List.mem_map.1 hkeys with ⟨p, hp, rfl⟩
    rcases fanOut_ok_mem hfan p hp with ⟨s, _, res, hres, rfl⟩
    exact panel_keys_nodup hΔ hres
  · rw [List.pairwise_map]
    have hsym : panels.map SymbolPanel.symbol = symbols := fanOut_symbols hfan
    have hnd' : (panels.map SymbolPanel.symbol).Nodup := by rw [hsym]; exact hnd
    have hpw : panels.Pairwise (fun p q => p.symbol ≠ q.symbol) := by
      rw [List.Nodup, List.pairwise_map] at hnd'
      exact hnd'
    refine hpw.imp ?_
    intro p q hne
    intro x hxp hxq
    have hx1 : x.2 = p.symbol := by
      rcases List.mem_map.1 hxp with ⟨e, he, rfl⟩
      exact panelRetRows_symbol he
    have hx2 : x.2 = q.symbol := by
      rcases List.mem_map.1 hxq with ⟨e, he, rfl⟩
      exact panelRetRows_symbol he
    exact hne (by rw [← hx1, hx2])

theorem any_isSome_of_all {s : Series} (hne : s ≠ [])
    (hall : ∀ x ∈ s, x.isSome = true) :
    s.any (fun v => v.isSome) = true := by
  cases s with
  | nil => exact absurd rfl hne
  | cons a t =>
    have := hall a (by simp)
    simp [List.any_cons, this]

theorem lookup_key_mem_map_fst {α β : Type} [BEq α] [LawfulBEq α]
    {l : List (α × β)} {k : α} {v : β} (h : List.lookup k l = some v) :
    k ∈ l.map Prod.fst := by
  induction l with
  | nil => simp [List.lookup] at h
  | cons p t ih =>
    obtain ⟨a, b⟩ := p
    cases hk : k == a with
    | true =>
      have : k = a := eq_of_beq hk
      simp [this]
    | false =>
      have h' : List.lookup k t = some v := by simpa [List.lookup, hk] using h
      simpa using Or.inr (ih h')

theorem lookup_featurize_some {taFeat : DataFrame → List (String × Series)}
    {df : DataFrame} {c : String} {s : Series}
    (hc : List.lookup c df.cols = some s)
    (hany : s.any (fun v => v.isSome) = true) :
    List.lookup c (featurize taFeat df).cols = some (ffillSeries none s) := by
  have h1 : List.lookup c (df.cols ++ taFeat df) = some s := lookup_append_some hc
  have h2 := lookup_filter_pos (fun c => c.2.any (fun v => v.isSome)) h1 hany
  show List.lookup c ((dropAllNaCols
    { df with cols := df.cols ++ taFeat df }).cols.map
      (fun c => (c.1, ffillSeries none c.2))) = _
  rw [lookup_map_val]
  have h3 : (dropAllNaCols { df with cols := df.cols ++ taFeat df }).cols =
      (df.cols ++ taFeat df).filter (fun c => c.2.any (fun v => v.isSome)) := rfl
  rw [h3, h2]
  rfl

/-- The dropped-then-ffilled ret column has a value as soon as there are
two bars with nonzero closes: position 1 is a genuine percent change. -/
theorem ret_any {Δ : Nat} {rows : List RawRow} (h : rows ≠ [])
    (hlen2 : 2 ≤ (gridTimes Δ rows).length)
    (hnz : ∀ r ∈ rows, r.close ≠ 0) :
    (pct_change (ffillSeries none (aggCloseSeries Δ rows))).any
      (fun v => v.isSome) = true := by
  obtain ⟨v0, t0, hshape⟩ := close_col_shape (Δ := Δ) h
  have hclose_all : ∀ x ∈ ffillSeries none (aggCloseSeries Δ rows),
      x.isSome = true := by
    obtain ⟨w, hw⟩ := aggClose_head (Δ := Δ) h
    exact ffill_all_isSome_of_head hw
  have hclose_nz : ∀ v : ℚ,
      some v ∈ ffillSeries none (aggCloseSeries Δ rows) → v ≠ 0 := by
    intro v hv
    obtain ⟨r, hr, rfl⟩ := close_values_from_rows hv
    exact hnz r hr
  have htail_all : ∀ x ∈ List.zipWith pctChangeCell
      (ffillSeries none (aggCloseSeries Δ rows))
      (ffillSeries none (aggCloseSeries Δ rows)).tail, x.isSome = true :=
    zipWith_pcc_isSome _ _ hclose_all hclose_nz
      (fun x hx => hclose_all x (List.mem_of_mem_tail hx))
  have hpc : pct_change (ffillSeries none (aggCloseSeries Δ rows)) =
      none :: List.zipWith pctChangeCell
        (ffillSeries none (aggCloseSeries Δ rows))
        (ffillSeries none (aggCloseSeries Δ rows)).tail := by
    rw [hshape]
    rfl
  rw [hpc]
  rcases hz : List.zipWith pctChangeCell
      (ffillSeries none (aggCloseSeries Δ rows))
      (ffillSeries none (aggCloseSeries Δ rows)).tail with _ | ⟨b, tb⟩
  · exfalso
    have hlenz := congrArg List.length hz
    rw [List.length_zipWith, List.length_tail] at hlenz
    have hslen : (ffillSeries none (aggCloseSeries Δ rows)).length =
        (gridTimes Δ rows).length := by
      rw [ffillSeries_length]
      simp [aggCloseSeries]
    simp at hlenz
    omega
  · have hb : b.isSome = true := htail_all b (by rw [hz]; simp)
    simp [List.any_cons, hb]

/-- The non-empty finished per-symbol frame always carries its OHLCV
columns; the `ret` column survives as well when closes are nonzero. -/
theorem featurize_has_cols {Δ : Nat} {rows : List RawRow}
    (taFeat : DataFrame → List (String × Series)) (h : rows ≠ []) :
    "open" ∈ colNames (featurize taFeat (perSymbolFrame Δ rows)) ∧
    "high" ∈ colNames (featurize taFeat (perSymbolFrame Δ rows)) ∧
    "low" ∈ colNames (featurize taFeat (perSymbolFrame Δ rows)) ∧
    "close" ∈ colNames (featurize taFeat (perSymbolFrame Δ rows)) ∧
    "volume" ∈ colNames (featurize taFeat (perSymbolFrame Δ rows)) := by
  have hlen : (ffillSeries none (aggOpenSeries Δ rows)).length =
      (gridTimes Δ rows).length := by
    rw [ffillSeries_length]
    simp [aggOpenSeries]
  have hgpos := gridTimes_pos (Δ := Δ) h
  refine ⟨?_, ?_, ?_, ?_, ?_⟩
  · obtain ⟨v, hv⟩ := aggOpen_head (Δ := Δ) h
    exact lookup_key_mem_map_fst (lookup_featurize_some (lookup_psf_open Δ rows)
      (any_isSome_of_all (by apply List.length_pos.1; omega)
        (ffill_all_isSome_of_head hv)))
  · obtain ⟨v, hv⟩ := aggHigh_head (Δ := Δ) h
    exact lookup_key_mem_map_fst (lookup_featurize_some (lookup_psf_high Δ rows)
      (any_isSome_of_all (by
        apply List.length_pos.1
        rw [ffillSeries_length]
        simpa [aggHighSeries] using hgpos)
        (ffill_all_isSome_of_head hv)))
  · obtain ⟨v, hv⟩ := aggLow_head (Δ := Δ) h
    exact lookup_key_mem_map_fst (lookup_featurize_some (lookup_psf_low Δ rows)
      (any_isSome_of_all (by
        apply List.length_pos.1
        rw [ffillSeries_length]
        simpa [aggLowSeries] using hgpos)
        (ffill_all_isSome_of_head hv)))
  · obtain ⟨v, hv⟩ := aggClose_head (Δ := Δ) h
    exact lookup_key_mem_map_fst (lookup_featurize_some (lookup_psf_close Δ rows)
      (any_isSome_of_all (by
        apply List.length_pos.1
        rw [ffillSeries_length]
        simpa [aggCloseSeries] using hgpos)
        (ffill_all_isSome_of_head hv)))
  · have hid : ffillSeries none (aggVolumeSeries Δ rows) = aggVolumeSeries Δ rows :=
      ffillSeries_id_of_isSome none _ (aggVolumeSeries_isSome Δ rows)
    refine lookup_key_mem_map_fst (lookup_featurize_some (lookup_psf_volume Δ rows) ?_)
    rw [hid]
    refine any_isSome_of_all ?_ (aggVolumeSeries_isSome Δ rows)
    apply List.length_pos.1
    simpa [aggVolumeSeries] using hgpos

theorem featurize_has_ret {Δ : Nat} {rows : List RawRow}
    (taFeat : DataFrame → List (String × Series)) (h : rows ≠ [])
    (hlen2 : 2 ≤ (gridTimes Δ rows).length)
    (hnz : ∀ r ∈ rows, r.close ≠ 0) :
    "ret" ∈ colNames (featurize taFeat (perSymbolFrame Δ rows)) :=
  lookup_key_mem_map_fst (lookup_featurize_some (lookup_psf_ret Δ rows)
    (ret_any h hlen2 hnz))

theorem mem_unionCols_of {panels : List SymbolPanel} {p : SymbolPanel}
    {c : String} (hp : p ∈ panels) (hc : c ∈ colNames p.df) :
    c ∈ unionCols panels := by
  unfold unionCols
  rw [mem_uniqueList, List.mem_flatten]
  exact ⟨colNames p.df, List.mem_map.2 ⟨p, hp, rfl⟩, hc⟩

/-! ### Claim theorems -/

/-- C1 (amended): in every non-empty symbol panel produced by `load_data`,
a gap-filled bucket (one with no raw rows) carries forward the previous
row's value of each of open, high, low and close separately — in
particular close = previous close — and has volume = 0. The original
claim, that all four price fields equal the previous close, fails: each
field forward-fills from its own column. -/
theorem c1_gap_fill_per_field
    (store : String → Option (List RawRow))
    (taFeat : DataFrame → List (String × Series))
    (symbol : String) (start end_ Δ : Nat) (raw : List RawRow)
    (res : LoadResult) (j : Nat)
    (hstore : store symbol = some raw)
    (hok : load_data store taFeat symbol start end_ Δ = .ok res)
    (hfull : res.warned = false)
    (hj : j + 1 < res.panel.df.index.length)
    (hgap : bucketRows Δ (rawFiltered start end_ raw)
        (res.panel.df.index.getD (j + 1) 0) = []) :
    cell res.panel.df "open" (j + 1) = cell res.panel.df "open" j ∧
    cell res.panel.df "high" (j + 1) = cell res.panel.df "high" j ∧
    cell res.panel.df "low" (j + 1) = cell res.panel.df "low" j ∧
    cell res.panel.df "close" (j + 1) = cell res.panel.df "close" j ∧
    cell res.panel.df "volume" (j + 1) = some 0 := by
  rcases load_data_ok_cases hok with ⟨raw', hstore', hcase⟩
  rw [hstore] at hstore'
  cases hstore'
  rcases hcase with ⟨hres, _⟩ | ⟨hres, hlen⟩
  · rw [hres] at hfull
    cases hfull
  set rows := rawFiltered start end_ raw with hrows
  have hdf : res.panel.df = featurize taFeat (perSymbolFrame Δ rows) := by
    rw [hres]
  have hidx : res.panel.df.index = gridTimes Δ rows := by
    rw [hdf]
    rfl
  have hjg : j + 1 < (gridTimes Δ rows).length := by
    rw [← hidx]
    exact hj
  have hrne : rows ≠ [] := by
    intro hempty
    rw [hempty] at hjg
    simp [gridTimes] at hjg
  have htj : res.panel.df.index.getD (j + 1) 0 = bMin Δ rows + (j + 1) * Δ := by
    rw [hidx, getD_eq_getElem?, gridTimes_getElem? hrne hjg]
    rfl
  rw [htj] at hgap
  obtain ⟨ho, hh, hl, hc, hv⟩ := agg_gap_none hrne hjg hgap
  refine ⟨?_, ?_, ?_, ?_, ?_⟩
  · rw [hdf, cell, cell, getCol_final_open taFeat hrne,
      getD_eq_getElem?, getD_eq_getElem?, ffillSeries_getElem_none_step none _ j ho]
  · rw [hdf, cell, cell, getCol_final_high taFeat hrne,
      getD_eq_getElem?, getD_eq_getElem?, ffillSeries_getElem_none_step none _ j hh]
  · rw [hdf, cell, cell, getCol_final_low taFeat hrne,
      getD_eq_getElem?, getD_eq_getElem?, ffillSeries_getElem_none_step none _ j hl]
  · rw [hdf, cell, cell, getCol_final_close taFeat hrne,
      getD_eq_getElem?, getD_eq_getElem?, ffillSeries_getElem_none_step none _ j hc]
  · rw [hdf, cell, getCol_final_volume taFeat hrne, getD_eq_getElem?, hv]
    rfl

/-- C3: in every non-empty symbol panel produced by `load_data` (on data
whose close prices are nonzero, so that no float infinity arises), the
`ret` column at row `t` equals `close[t] / close[t-1] - 1` for every pair
of consecutive rows — in particular for consecutive non-gap-filled bars —
and is NaN (undefined) at the panel's first row. -/
theorem c3_return_is_pct_change
    (store : String → Option (List RawRow))
    (taFeat : DataFrame → List (String × Series))
    (symbol : String) (start end_ Δ : Nat) (raw : List RawRow)
    (res : LoadResult)
    (hstore : store symbol = some raw)
    (hok : load_data store taFeat symbol start end_ Δ = .ok res)
    (hfull : res.warned = false)
    (hnz : ∀ r ∈ rawFiltered start end_ raw, r.close ≠ 0) :
    cell res.panel.df "ret" 0 = none ∧
    ∀ j, j + 1 < res.panel.df.index.length →
      ∃ c p : ℚ, cell res.panel.df "close" (j + 1) = some c ∧
        cell res.panel.df "close" j = some p ∧
        cell res.panel.df "ret" (j + 1) = some (c / p - 1) := by
  rcases load_data_ok_cases hok with ⟨raw', hstore', hcase⟩
  rw [hstore] at hstore'
  cases hstore'
  rcases hcase with ⟨hres, _⟩ | ⟨hres, hlen⟩
  · rw [hres] at hfull
    cases hfull
  set rows := rawFiltered start end_ raw with hrows
  have hdf : res.panel.df = featurize taFeat (perSymbolFrame Δ rows) := by
    rw [hres]
  have hidx : res.panel.df.index = gridTimes Δ rows := by
    rw [hdf]
    rfl
  have hrne : rows ≠ [] := by
    intro hempty
    rw [hempty] at hlen
    simp [gridTimes] at hlen
  have hlen2 : 2 ≤ (gridTimes Δ rows).length := by omega
  set s := ffillSeries none (aggCloseSeries Δ rows) with hs
  have hslen : s.length = (gridTimes Δ rows).length := by
    rw [hs, ffillSeries_length]
    simp [aggCloseSeries]
  have hsne : s ≠ [] := by
    apply List.length_pos.1
    omega
  have hret : getCol res.panel.df "ret" = pct_change s := by
    rw [hdf]
    exact getCol_final_ret taFeat hrne hlen2 hnz
  have hclosecol : getCol res.panel.df "close" = s := by
    rw [hdf]
    exact getCol_final_close taFeat hrne
  have hall : ∀ x ∈ s, x.isSome = true := by
    obtain ⟨w, hw⟩ := aggClose_head (Δ := Δ) hrne
    exact ffill_all_isSome_of_head hw
  have hval : ∀ {i : Nat}, i < s.length → ∃ p : ℚ, s[i]? = some (some p) ∧ p ≠ 0 := by
    intro i hi
    rcases hsi : s[i]? with _ | x
    · rw [List.getElem?_eq_none_iff] at hsi
      omega
    · have hx := hall x (List.getElem?_mem hsi)
      rcases Option.isSome_iff_exists.1 hx with ⟨p, rfl⟩
      refine ⟨p, rfl, ?_⟩
      obtain ⟨r, hr, rfl⟩ := close_values_from_rows (by
        exact List.getElem?_mem hsi)
      exact hnz r hr
  constructor
  · rw [cell, hret, getD_eq_getElem?, pct_change_zero hsne]
    rfl
  · intro j hj
    rw [hidx] at hj
    have hjs : j + 1 < s.length := by omega
    obtain ⟨c, hc, hcnz⟩ := hval hjs
    obtain ⟨p, hp, hpnz⟩ := hval (by omega : j < s.length)
    refine ⟨c, p, ?_, ?_, ?_⟩
    · rw [cell, hclosecol, getD_eq_getElem?, hc]
      rfl
    · rw [cell, hclosecol, getD_eq_getElem?, hp]
      rfl
    · rw [cell, hret, getD_eq_getElem?, pct_change_getElem_succ hp hc]
      simp [pctChangeCell, hpnz]

/-- C9: in every symbol panel produced by `load_data`, the timestamp index
is strictly regular at the configured interval — consecutive index entries
differ by exactly `Δ`, so no bucket between the panel's first and last
timestamp is missing — and every index entry lies before `end`. -/
theorem c9_index_regular
    (store : String → Option (List RawRow))
    (taFeat : DataFrame → List (String × Series))
    (symbol : String) (start end_ Δ : Nat) (res : LoadResult)
    (hok : load_data store taFeat symbol start end_ Δ = .ok res) :
    (∀ j, j + 1 < res.panel.df.index.length →
      res.panel.df.index.getD (j + 1) 0 = res.panel.df.index.getD j 0 + Δ) ∧
    (∀ t ∈ res.panel.df.index, t < end_) := by
  rcases load_data_ok_cases hok with ⟨raw, _, hcase⟩
  rcases hcase with ⟨hres, _⟩ | ⟨hres, hlen⟩
  · rw [hres]
    exact ⟨fun j hj => by simp [emptyDF] at hj, fun t ht => by simp [emptyDF] at ht⟩
  · rw [hres]
    have hidx : (featurize taFeat
        (perSymbolFrame Δ (rawFiltered start end_ raw))).index =
        gridTimes Δ (rawFiltered start end_ raw) := rfl
    rw [hidx]
    set rows := rawFiltered start end_ raw with hrows
    constructor
    · intro j hj
      have hrne : rows ≠ [] := by
        intro hempty
        rw [hempty] at hj
        simp [gridTimes] at hj
      have hj' : j < (gridTimes Δ rows).length := by omega
      rw [getD_eq_getElem?, getD_eq_getElem?, gridTimes_getElem? hrne hj,
        gridTimes_getElem? hrne hj']
      show bMin Δ rows + (j + 1) * Δ = bMin Δ rows + j * Δ + Δ
      ring
    · intro t ht
      have hrne : rows ≠ [] := gridTimes_ne_nil_of_mem ht
      have h1 := gridTimes_le_bMax ht
      have h2 : bMax Δ (rawFiltered start end_ raw) < end_ := bMax_lt_end hrne
      rw [← hrows] at h2
      omega

/-- C10: whenever `load_features` returns a panel, that panel has none of
the columns open, high, low, close, volume, trend_psar_down,
trend_psar_up, whatever symbols were requested. -/
theorem c10_features_drop_columns
    (store : String → Option (List RawRow))
    (taFeat : DataFrame → List (String × Series))
    (symbols : List String) (start end_ lookback Δ : Nat) (V : FeatView)
    (hok : load_features store taFeat symbols start end_ lookback Δ = .ok V) :
    ∀ c ∈ (["open", "high", "low", "close", "volume",
        "trend_psar_down", "trend_psar_up"] : List String), c ∉ V.cols := by
  obtain ⟨panels, _, _, hcols, _⟩ := load_features_ok_shape hok
  intro c hc hmem
  rw [hcols] at hmem
  have h1 := (List.mem_filter.1 hmem).2
  have h2 := (List.mem_filter.1 (List.mem_filter.1 hmem).1).2
  simp at h1 h2
  fin_cases hc <;> simp_all

/-- C5: every timestamp of every panel returned by `load_market_data`,
`load_features`, `load_ret` or `load_cov` lies in `[start, end]`, whatever
lookback extension was used internally. -/
theorem c5_output_clipped
    (store : String → Option (List RawRow))
    (taFeat : DataFrame → List (String × Series))
    (symbols : List String) (start end_ lookback Δ w : Nat) :
    (∀ out, load_market_data store taFeat symbols start end_ lookback Δ = .ok out →
      ∀ r ∈ out, start ≤ r.time ∧ r.time ≤ end_) ∧
    (∀ V, load_features store taFeat symbols start end_ lookback Δ = .ok V →
      ∀ r ∈ V.rows, start ≤ r.1 ∧ r.1 ≤ end_) ∧
    (∀ T, load_ret store taFeat symbols start end_ lookback Δ = .ok T →
      ∀ t ∈ T.times, start ≤ t ∧ t ≤ end_) ∧
    (∀ CV, load_cov store taFeat symbols start end_ w lookback Δ = .ok CV →
      ∀ r ∈ CV.rows, start ≤ r.1 ∧ r.1 ≤ end_) := by
  refine ⟨?_, ?_, ?_, ?_⟩
  · intro out hok r hr
    obtain ⟨panels, _, _, hout⟩ := load_market_data_ok_shape hok
    rw [hout] at hr
    have h2 := (List.mem_filter.1 hr).2
    simpa using h2
  · intro V hok r hr
    obtain ⟨panels, _, _, _, hrows⟩ := load_features_ok_shape hok
    rw [hrows] at hr
    have h2 := (List.mem_filter.1 hr).2
    simpa using h2
  · intro T hok t ht
    obtain ⟨T₀, _, hT⟩ := load_ret_ok_shape hok
    rw [hT] at ht
    rcases List.mem_map.1 ht with ⟨pair, hpair, rfl⟩
    have h2 := (List.mem_filter.1 hpair).2
    simpa using h2
  · intro CV hok r hr
    obtain ⟨T, _, _, hrows⟩ := load_cov_ok_shape hok
    rw [hrows] at hr
    have h2 := (List.mem_filter.1 hr).2
    simpa using h2

/-- C7: a requested symbol whose raw file is absent makes `load_data`
raise, and the error propagates out of the fan-out: all four multi-symbol
builders abort with an error. -/
theorem c7_missing_file_aborts
    (store : String → Option (List RawRow))
    (taFeat : DataFrame → List (String × Series))
    (symbols : List String) (start end_ lookback Δ w : Nat) (s : String)
    (hs : s ∈ symbols) (hmiss : store s = none) :
    (∃ e, load_data store taFeat s (start - lookback) end_ Δ = .error e) ∧
    (∃ e, load_market_data store taFeat symbols start end_ lookback Δ = .error e) ∧
    (∃ e, load_features store taFeat symbols start end_ lookback Δ = .error e) ∧
    (∃ e, load_ret store taFeat symbols start end_ lookback Δ = .error e) ∧
    (∃ e, load_cov store taFeat symbols start end_ w lookback Δ = .error e) := by
  have hfe : ∃ e,
      fanOut store taFeat symbols (start - lookback) end_ Δ = .error e :=
    fanOut_error hs hmiss
  obtain ⟨e, he⟩ := hfe
  refine ⟨⟨_, load_data_missing hmiss⟩, ⟨e, ?_⟩, ⟨e, ?_⟩, ⟨e, ?_⟩, ⟨e, ?_⟩⟩
  · unfold load_market_data
    rw [he]
  · unfold load_features
    rw [he]
  · unfold load_ret retPipeline
    rw [he]
    rfl
  · unfold load_cov retPipeline
    rw [he]
    rfl

/-- C4: every covariance matrix `load_cov` emits sits at a pivot row
position `i` with `i + 1 ≥ window` — so nothing is emitted before `window`
returns rows exist — and equals the sample covariance
(`windowCovMatrix`: column means, centered cross products, divided by
`window - 1`) of exactly the trailing `window` returns rows, whose count
is exactly `window`. In particular this holds at the first emitted
timestamp. -/
theorem c4_cov_trailing_window
    (store : String → Option (List RawRow))
    (taFeat : DataFrame → List (String × Series))
    (symbols : List String) (start end_ w lookback Δ : Nat) (CV : CovView)
    (hok : load_cov store taFeat symbols start end_ w lookback Δ = .ok CV) :
    ∃ T, retPipeline store taFeat symbols start end_ lookback Δ = .ok T ∧
      CV.syms = T.syms ∧
      ∀ tM ∈ CV.rows, ∃ i, w ≤ i + 1 ∧ T.times[i]? = some tM.1 ∧
        ((T.vals.drop (i + 1 - w)).take w).length = w ∧
        tM.2 = windowCovMatrix T w i := by
  obtain ⟨T, hpipe, hsyms, hrows⟩ := load_cov_ok_shape hok
  refine ⟨T, hpipe, hsyms, ?_⟩
  intro tM htM
  rw [hrows] at htM
  have htM' := (List.mem_filter.1 htM).1
  rcases List.mem_filterMap.1 htM' with ⟨i, hi, hfi⟩
  rcases Option.map_eq_some'.1 hfi with ⟨M, hM, htMeq⟩
  by_cases hcond : w ≤ i + 1 ∧ 2 ≤ w
  · refine ⟨i, hcond.1, ?_, ?_, ?_⟩
    · have hilen : i < T.times.length := List.mem_range.1 hi
      rw [getD_eq_getElem?] at htMeq
      rcases hx : T.times[i]? with _ | t
      · rw [List.getElem?_eq_none_iff] at hx
        omega
      · rw [hx] at htMeq
        rw [← htMeq]
        rfl
    · have hilen : i < T.times.length := List.mem_range.1 hi
      have hvlen : T.vals.length = T.times.length := by
        obtain ⟨panels, _, _, _, _, hT⟩ := retPipeline_ok_shape hpipe
        rw [hT, addCash_times, addCash_vals_length, pivotRet_vals_length]
      rw [List.length_take, List.length_drop]
      omega
    · unfold rollingCovAt at hM
      rw [if_pos hcond] at hM
      rw [← htMeq]
      simpa using hM.symm
  · unfold rollingCovAt at hM
    rw [if_neg hcond] at hM
    cases hM

/-- C8: every table returned by `load_ret` has a `cash` column whose value
is 0 at every timestamp, and every `(symbol, timestamp)` cell that no
concatenated panel backs with a non-NaN `ret` record — a missing cell or a
NaN cell — holds 0 (the `fillna(0)` step). -/
theorem c8_cash_zero_and_fill
    (store : String → Option (List RawRow))
    (taFeat : DataFrame → List (String × Series))
    (symbols : List String) (start end_ lookback Δ : Nat) (T : RetTable)
    (hok : load_ret store taFeat symbols start end_ lookback Δ = .ok T) :
    "cash" ∈ T.syms ∧
    (∀ tv ∈ T.times.zip T.vals, ∀ j, j < T.syms.length →
      T.syms.getD j "" = "cash" → tv.2.getD j 0 = 0) ∧
    (∀ panels, fanOut store taFeat symbols (start - lookback) end_ Δ = .ok panels →
      ∀ tv ∈ T.times.zip T.vals, ∀ j, j < T.syms.length →
        (∀ q ∈ retEntries panels,
          ¬(q.1 = tv.1 ∧ q.2.1 = T.syms.getD j "") ∨ q.2.2 = none) →
        tv.2.getD j 0 = 0) := by
  obtain ⟨T₀, hpipe, hclip⟩ := load_ret_ok_shape hok
  obtain ⟨panels₀, hfan₀, _, _, _, hT₀⟩ := retPipeline_ok_shape hpipe
  have hsyms : T.syms = (addCash (pivotRet panels₀)).syms := by
    rw [hclip, clipRet_syms, hT₀]
  refine ⟨?_, ?_, ?_⟩
  · rw [hsyms]
    exact addCash_cash_mem _
  · intro tv htv j hj hcash
    rw [hclip] at htv
    have htv₀ : tv ∈ T₀.times.zip T₀.vals := clipRet_zip_subset htv
    rw [hT₀] at htv₀
    rw [hsyms] at hj hcash
    rw [addCash_cell htv₀ hj, if_pos hcash]
  · intro panels hfan tv htv j hj hmiss
    have hpe : panels = panels₀ := by
      rw [hfan] at hfan₀
      cases hfan₀
      rfl
    subst hpe
    rw [hclip] at htv
    have htv₀ : tv ∈ T₀.times.zip T₀.vals := clipRet_zip_subset htv
    rw [hT₀] at htv₀
    rw [hsyms] at hj hmiss
    rw [addCash_cell htv₀ hj]
    by_cases hcash : (addCash (pivotRet panels)).syms.getD j "" = "cash"
    · rw [if_pos hcash]
    · rw [if_neg hcash]
      exact pivotCell_zero hmiss

/-- C2 (amended): a requested symbol with no usable data in the
lookback-extended range (its `load_data` soft-fails to the empty panel)
contributes no rows to the market-data and feature views, and — contrary
to the original claim — also no column at all to the returns and
covariance views: `fillna(0)` only fills cells of existing columns and
cannot create a column for a symbol the pivot never saw. -/
theorem c2_empty_symbol_views
    (store : String → Option (List RawRow))
    (taFeat : DataFrame → List (String × Series))
    (symbols : List String) (start end_ lookback Δ w : Nat) (s : String)
    (hempty : load_data store taFeat s (start - lookback) end_ Δ =
      .ok ⟨⟨s, emptyDF⟩, true⟩)
    (hscash : s ≠ "cash") :
    (∀ out, load_market_data store taFeat symbols start end_ lookback Δ = .ok out →
      ∀ r ∈ out, r.symbol ≠ s) ∧
    (∀ V, load_features store taFeat symbols start end_ lookback Δ = .ok V →
      ∀ r ∈ V.rows, r.2.1 ≠ s) ∧
    (∀ T, load_ret store taFeat symbols start end_ lookback Δ = .ok T →
      s ∉ T.syms) ∧
    (∀ CV, load_cov store taFeat symbols start end_ w lookback Δ = .ok CV →
      s ∉ CV.syms) := by
  have hnosym : ∀ panels,
      fanOut store taFeat symbols (start - lookback) end_ Δ = .ok panels →
      s ∉ (addCash (pivotRet panels)).syms := by
    intro panels hfan hmem
    rcases mem_addCash_syms hmem with hmem' | hmem'
    · rcases mem_pivotSyms hmem' with ⟨p, hp, e, he, hes⟩
      have hps : p.symbol = s := by rw [← hes, panelRetRows_symbol he]
      have hdf := fanOut_empty_symbol hfan hempty p hp hps
      rw [panel_empty_no_retrows hdf] at he
      cases he
    · exact hscash hmem'
  refine ⟨?_, ?_, ?_, ?_⟩
  · intro out hok r hr heq
    obtain ⟨panels, hfan, _, hout⟩ := load_market_data_ok_shape hok
    rw [hout] at hr
    have hr' := (List.mem_filter.1 hr).1
    rcases List.mem_flatten.1 hr' with ⟨rows, hrows, hrr⟩
    rcases List.mem_map.1 hrows with ⟨p, hp, rfl⟩
    have hps : p.symbol = s := by rw [← heq, panelMRows_symbol hrr]
    have hdf := fanOut_empty_symbol hfan hempty p hp hps
    rw [panel_empty_no_mrows hdf] at hrr
    cases hrr
  · intro V hok r hr heq
    obtain ⟨panels, hfan, _, _, hrows⟩ := load_features_ok_shape hok
    rw [hrows] at hr
    have hr' := (List.mem_filter.1 hr).1
    rcases List.mem_flatten.1 hr' with ⟨rows, hrowsm, hrr⟩
    rcases List.mem_map.1 hrowsm with ⟨p, hp, rfl⟩
    have hps : p.symbol = s := by rw [← heq, panelFeatRows_symbol hrr]
    have hdf := fanOut_empty_symbol hfan hempty p hp hps
    rw [panel_empty_no_featrows hdf] at hrr
    cases hrr
  · intro T hok hmem
    obtain ⟨T₀, hpipe, hclip⟩ := load_ret_ok_shape hok
    obtain ⟨panels, hfan, _, _, _, hT₀⟩ := retPipeline_ok_shape hpipe
    rw [hclip, clipRet_syms, hT₀] at hmem
    exact hnosym panels hfan hmem
  · intro CV hok hmem
    obtain ⟨T, hpipe, hsyms, _⟩ := load_cov_ok_shape hok
    obtain ⟨panels, hfan, _, _, _, hT⟩ := retPipeline_ok_shape hpipe
    rw [hsyms, hT] at hmem
    exact hnosym panels hfan hmem

/-- C6 (amended): a symbol whose lookback-extended data resamples to fewer
than 30 bars makes `load_data` warn and return an empty panel without
raising, and a multi-symbol batch containing such a symbol completes
provided some symbol of the batch yields a non-empty panel (with nonzero
closes, distinct symbols and the psar feature columns present, so that
every pandas step succeeds). The original claim fails when every symbol is
undersized: concatenating only empty frames loses the `time`/`symbol`
columns and `set_index` / `pivot` raise a KeyError, aborting the batch. -/
theorem c6_soft_failure_and_batch
    (store : String → Option (List RawRow))
    (taFeat : DataFrame → List (String × Series))
    (symbols : List String) (start end_ lookback Δ w : Nat)
    (s₀ : String) (raw₀ : List RawRow) (s₁ : String) (raw₁ : List RawRow)
    (hs₀ : store s₀ = some raw₀)
    (hshort : (gridTimes Δ (rawFiltered (start - lookback) end_ raw₀)).length < 30)
    (hs₀mem : s₀ ∈ symbols)
    (hfiles : ∀ s ∈ symbols, (store s).isSome = true)
    (hnd : symbols.Nodup) (hΔ : 0 < Δ)
    (hs₁mem : s₁ ∈ symbols) (hs₁ : store s₁ = some raw₁)
    (hbig : ¬ (gridTimes Δ (rawFiltered (start - lookback) end_ raw₁)).length < 30)
    (hnz : ∀ r ∈ rawFiltered (start - lookback) end_ raw₁, r.close ≠ 0)
    (hpsar : "trend_psar_down" ∈ colNames (featurize taFeat
        (perSymbolFrame Δ (rawFiltered (start - lookback) end_ raw₁))) ∧
      "trend_psar_up" ∈ colNames (featurize taFeat
        (perSymbolFrame Δ (rawFiltered (start - lookback) end_ raw₁)))) :
    load_data store taFeat s₀ (start - lookback) end_ Δ =
      .ok ⟨⟨s₀, emptyDF⟩, true⟩ ∧
    (∃ out, load_market_data store taFeat symbols start end_ lookback Δ = .ok out) ∧
    (∃ V, load_features store taFeat symbols start end_ lookback Δ = .ok V) ∧
    (∃ T, load_ret store taFeat symbols start end_ lookback Δ = .ok T) ∧
    (∃ CV, load_cov store taFeat symbols start end_ w lookback Δ = .ok CV) := by
  set rows₁ := rawFiltered (start - lookback) end_ raw₁ with hrows₁
  have hrne₁ : rows₁ ≠ [] := by
    intro hempty
    rw [hempty] at hbig
    simp [gridTimes] at hbig
  have hlen2 : 2 ≤ (gridTimes Δ rows₁).length := by omega
  have hall : ∀ s ∈ symbols, ∃ res,
      load_data store taFeat s (start - lookback) end_ Δ = .ok res := by
    intro s hs
    rcases Option.isSome_iff_exists.1 (hfiles s hs) with ⟨raw, hraw⟩
    exact load_data_ok_of_some hraw
  obtain ⟨panels, hfan⟩ := fanOut_ok_of_all hall
  obtain ⟨res, hres, hmem⟩ := fanOut_panel_of_mem hfan hs₁mem
  rw [load_data_full hs₁ hbig] at hres
  cases hres
  have hempty_ne : ¬ allPanelsEmpty panels = true := by
    intro hall'
    have h1 := List.all_eq_true.1 hall' _ hmem
    have h2 : (featurize taFeat (perSymbolFrame Δ rows₁)).index =
        gridTimes Δ rows₁ := rfl
    rw [List.isEmpty_iff] at h1
    have h3 : (gridTimes Δ rows₁).length = 0 := by
      change (featurize taFeat (perSymbolFrame Δ rows₁)).index.length = 0
      rw [h1]
      rfl
    omega
  have hempty_false : allPanelsEmpty panels = false := by
    cases hb : allPanelsEmpty panels
    · rfl
    · exact absurd hb hempty_ne
  obtain ⟨ho, hh, hl, hc, hv⟩ := featurize_has_cols (Δ := Δ) taFeat hrne₁
  have hohlcv_all : (["open", "high", "low", "close", "volume"].all
      (unionCols panels).contains) = true := by
    rw [List.all_eq_true]
    intro c hcm
    fin_cases hcm
    · simpa using mem_unionCols_of hmem ho
    · simpa using mem_unionCols_of hmem hh
    · simpa using mem_unionCols_of hmem hl
    · simpa using mem_unionCols_of hmem hc
    · simpa using mem_unionCols_of hmem hv
  refine ⟨load_data_soft hs₀ hshort, ?_, ?_, ?_, ?_⟩
  · have hmdone : load_market_data store taFeat symbols start end_ lookback Δ =
        .ok ((panels.map panelMRows).flatten.filter
          (fun r => decide (start ≤ r.time) && decide (r.time ≤ end_))) := by
      unfold load_market_data
      rw [hfan]
      show marketFromPanels start end_ panels = _
      unfold marketFromPanels
      rw [if_neg (by simp [hempty_false]), if_pos hohlcv_all]
    exact ⟨_, hmdone⟩
  · have hpsd : "trend_psar_down" ∈ (unionCols panels).filter
        (fun c => !(["open", "high", "low", "close", "volume"] :
          List String).contains c) :=
      List.mem_filter.2 ⟨mem_unionCols_of hmem hpsar.1, by decide⟩
    have hpsu : "trend_psar_up" ∈ (unionCols panels).filter
        (fun c => !(["open", "high", "low", "close", "volume"] :
          List String).contains c) :=
      List.mem_filter.2 ⟨mem_unionCols_of hmem hpsar.2, by decide⟩
    have hpsar_all : (["trend_psar_down", "trend_psar_up"].all
        ((unionCols panels).filter
          (fun c => !(["open", "high", "low", "close", "volume"] :
            List String).contains c)).contains) = true := by
      rw [List.all_eq_true]
      intro c hcm
      fin_cases hcm
      · simpa using hpsd
      · simpa using hpsu
    have hfdone : load_features store taFeat symbols start end_ lookback Δ =
        .ok { cols := featKept panels
              rows := (panels.map (panelFeatRows (featKept panels))).flatten.filter
                (fun r => decide (start ≤ r.1) && decide (r.1 ≤ end_)) } := by
      unfold load_features
      rw [hfan]
      show featViewFromPanels start end_ panels = _
      unfold featViewFromPanels
      rw [if_neg (by simp [hempty_false]), if_pos hohlcv_all, if_pos hpsar_all]
    exact ⟨_, hfdone⟩
  all_goals {
    have hcont : (unionCols panels).contains "ret" = true := by
      simpa using mem_unionCols_of hmem
        (featurize_has_ret (Δ := Δ) taFeat hrne₁ hlen2 hnz)
    have hndk := entries_keys_nodup hΔ hnd hfan
    have hpipe : retPipeline store taFeat symbols start end_ lookback Δ =
        .ok (addCash (pivotRet panels)) := by
      unfold retPipeline
      rw [hfan]
      show retTableFromPanels panels = _
      unfold retTableFromPanels
      rw [if_neg (by simp [hempty_false]), if_neg (by rw [hcont]; decide),
        if_neg (by rw [decide_eq_true hndk]; decide)]
    first
    | exact ⟨_, by unfold load_ret; rw [hpipe]; rfl⟩
    | exact ⟨_, by unfold load_cov; rw [hpipe]; rfl⟩
  }

/-- C1 counterexample: in the `aaausd` panel the bucket at time 1 is
gap-filled, yet its open is 1 — the previous bucket's open — while the
previous close is 2: the gap-filled open does not equal the previous
close, refuting "open = high = low = close = the previous bucket's
close". -/
theorem c1_counterexample :
    bucketRows 1 (rawFiltered 0 40 rowsA) 1 = [] ∧
    load_data exStore exTa "aaausd" 0 40 1 = .ok resA ∧
    resA.panel.df.index.getD 1 0 = 1 ∧
    cell resA.panel.df "open" 1 = some 1 ∧
    cell resA.panel.df "close" 0 = some 2 ∧
    some (1 : ℚ) ≠ some (2 : ℚ) :=
  ⟨by decide, by rfl, by rfl, by rfl, by rfl, by decide⟩

/-- C1 witness: the amended theorem applied to the concrete `aaausd`
panel at the gap bucket of time 1. -/
theorem c1_witness :
    cell resA.panel.df "open" 1 = cell resA.panel.df "open" 0 ∧
    cell resA.panel.df "high" 1 = cell resA.panel.df "high" 0 ∧
    cell resA.panel.df "low" 1 = cell resA.panel.df "low" 0 ∧
    cell resA.panel.df "close" 1 = cell resA.panel.df "close" 0 ∧
    cell resA.panel.df "volume" 1 = some 0 :=
  c1_gap_fill_per_field exStore exTa "aaausd" 0 40 1 rowsA resA 0
    (by rfl) (by rfl) (by rfl) (by decide) (by decide)

/-- C2 counterexample: `zzzusd` has no data in range, its `load_data`
soft-fails to the empty panel, yet the returns view of the
`aaausd`/`zzzusd` batch has no `zzzusd` column at all — not a zero-filled
one as claimed. -/
theorem c2_counterexample :
    load_data exStore exTa "zzzusd" 0 40 1 = .ok ⟨⟨"zzzusd", emptyDF⟩, true⟩ ∧
    load_ret exStore exTa ["aaausd", "zzzusd"] 0 40 0 1 = .ok exRet ∧
    "zzzusd" ∉ exRet.syms :=
  ⟨by rfl, by rfl, by decide⟩

/-- C2 witness: the amended theorem applied to the `bbbusd`/`zzzusd`
batch — the empty symbol contributes no returns column. -/
theorem c2_witness : "zzzusd" ∉ exRetB.syms :=
  (c2_empty_symbol_views exStore exTa ["bbbusd", "zzzusd"] 0 40 0 1 2 "zzzusd"
    (by rfl) (by decide)).2.2.1 exRetB (by rfl)

/-- C3 witness: the theorem applied to the concrete `aaausd` panel. -/
theorem c3_witness :
    cell resA.panel.df "ret" 0 = none ∧
    ∀ j, j + 1 < resA.panel.df.index.length →
      ∃ c p : ℚ, cell resA.panel.df "close" (j + 1) = some c ∧
        cell resA.panel.df "close" j = some p ∧
        cell resA.panel.df "ret" (j + 1) = some (c / p - 1) :=
  c3_return_is_pct_change exStore exTa "aaausd" 0 40 1 rowsA resA
    (by rfl) (by rfl) (by rfl) (by decide)

/-- C4 witness: the theorem applied to the concrete `aaausd`/`bbbusd`
covariance view with window 2. -/
theorem c4_witness :
    ∃ T, retPipeline exStore exTa ["aaausd", "bbbusd"] 0 40 0 1 = .ok T ∧
      exCov.syms = T.syms ∧
      ∀ tM ∈ exCov.rows, ∃ i, 2 ≤ i + 1 ∧ T.times[i]? = some tM.1 ∧
        ((T.vals.drop (i + 1 - 2)).take 2).length = 2 ∧
        tM.2 = windowCovMatrix T 2 i :=
  c4_cov_trailing_window exStore exTa ["aaausd", "bbbusd"] 0 40 2 0 1 exCov
    (by rfl)

/-- C5 witness: the theorem applied to the four concrete views of the
example store; every emitted timestamp lies in `[0, 40]`. -/
theorem c5_witness :
    (∀ r ∈ exMarket, 0 ≤ r.time ∧ r.time ≤ 40) ∧
    (∀ r ∈ exFeat.rows, 0 ≤ r.1 ∧ r.1 ≤ 40) ∧
    (∀ t ∈ exRetAB.times, 0 ≤ t ∧ t ≤ 40) ∧
    (∀ r ∈ exCov.rows, 0 ≤ r.1 ∧ r.1 ≤ 40) := by
  obtain ⟨h1, h2, h3, h4⟩ := c5_output_clipped exStore exTa ["aaausd", "bbbusd"]
    0 40 0 1 2
  obtain ⟨h1', _, _, _⟩ := c5_output_clipped exStore exTa ["aaausd", "zzzusd"]
    0 40 0 1 2
  exact ⟨h1' exMarket (by rfl), h2 exFeat (by rfl), h3 exRetAB (by rfl),
    h4 exCov (by rfl)⟩

/-- C6 counterexample: `zzzusd` and `yyyusd` both soft-fail to empty
panels, yet the batch made of just these two symbols aborts: the
concatenation of two empty frames has no `time`/`symbol` columns and
`set_index` raises, so the multi-symbol batch does not complete. -/
theorem c6_counterexample :
    load_data exStore exTa "zzzusd" 0 40 1 = .ok ⟨⟨"zzzusd", emptyDF⟩, true⟩ ∧
    load_data exStore exTa "yyyusd" 0 40 1 = .ok ⟨⟨"yyyusd", emptyDF⟩, true⟩ ∧
    load_market_data exStore exTa ["zzzusd", "yyyusd"] 0 40 0 1 =
      .error "KeyError: time, symbol" :=
  ⟨by rfl, by rfl, by rfl⟩

/-- C6 witness: the amended theorem applied to the `aaausd`/`zzzusd`
batch: the undersized symbol soft-fails and every view completes. -/
theorem c6_witness :
    load_data exStore exTa "zzzusd" 0 40 1 = .ok ⟨⟨"zzzusd", emptyDF⟩, true⟩ ∧
    (∃ out, load_market_data exStore exTa ["aaausd", "zzzusd"] 0 40 0 1 = .ok out) ∧
    (∃ V, load_features exStore exTa ["aaausd", "zzzusd"] 0 40 0 1 = .ok V) ∧
    (∃ T, load_ret exStore exTa ["aaausd", "zzzusd"] 0 40 0 1 = .ok T) ∧
    (∃ CV, load_cov exStore exTa ["aaausd", "zzzusd"] 0 40 2 0 1 = .ok CV) :=
  c6_soft_failure_and_batch exStore exTa ["aaausd", "zzzusd"] 0 40 0 1 2
    "zzzusd" [] "aaausd" rowsA (by rfl) (by decide) (by decide) (by decide)
    (by decide) (by decide) (by decide) (by rfl) (by decide) (by decide)
    ⟨by decide, by decide⟩

/-- C7 witness: the theorem applied to a batch containing the symbol
`qqqusd`, which has no raw file: every view aborts with an error. -/
theorem c7_witness :
    (∃ e, load_data exStore exTa "qqqusd" 0 40 1 = .error e) ∧
    (∃ e, load_market_data exStore exTa ["aaausd", "qqqusd"] 0 40 0 1 = .error e) ∧
    (∃ e, load_features exStore exTa ["aaausd", "qqqusd"] 0 40 0 1 = .error e) ∧
    (∃ e, load_ret exStore exTa ["aaausd", "qqqusd"] 0 40 0 1 = .error e) ∧
    (∃ e, load_cov exStore exTa ["aaausd", "qqqusd"] 0 40 2 0 1 = .error e) :=
  c7_missing_file_aborts exStore exTa ["aaausd", "qqqusd"] 0 40 0 1 2 "qqqusd"
    (by decide) (by rfl)

/-- C8 witness: the theorem applied to the concrete `aaausd`/`bbbusd`
returns view. -/
theorem c8_witness :
    "cash" ∈ exRetAB.syms ∧
    (∀ tv ∈ exRetAB.times.zip exRetAB.vals, ∀ j, j < exRetAB.syms.length →
      exRetAB.syms.getD j "" = "cash" → tv.2.getD j 0 = 0) ∧
    (∀ panels, fanOut exStore exTa ["aaausd", "bbbusd"] 0 40 1 = .ok panels →
      ∀ tv ∈ exRetAB.times.zip exRetAB.vals, ∀ j, j < exRetAB.syms.length →
        (∀ q ∈ retEntries panels,
          ¬(q.1 = tv.1 ∧ q.2.1 = exRetAB.syms.getD j "") ∨ q.2.2 = none) →
        tv.2.getD j 0 = 0) :=
  c8_cash_zero_and_fill exStore exTa ["aaausd", "bbbusd"] 0 40 0 1 exRetAB
    (by rfl)

/-- C9 witness: the theorem applied to the concrete `aaausd` panel. -/
theorem c9_witness :
    (∀ j, j + 1 < resA.panel.df.index.length →
      resA.panel.df.index.getD (j + 1) 0 = resA.panel.df.index.getD j 0 + 1) ∧
    (∀ t ∈ resA.panel.df.index, t < 40) :=
  c9_index_regular exStore exTa "aaausd" 0 40 1 resA (by rfl)

/-- C10 witness: the theorem applied to the concrete `aaausd`/`bbbusd`
feature view: none of the seven dropped columns is present. -/
theorem c10_witness :
    "open" ∉ exFeat.cols ∧ "high" ∉ exFeat.cols ∧ "low" ∉ exFeat.cols ∧
    "close" ∉ exFeat.cols ∧ "volume" ∉ exFeat.cols ∧
    "trend_psar_down" ∉ exFeat.cols ∧ "trend_psar_up" ∉ exFeat.cols :=
  ⟨c10_features_drop_columns exStore exTa ["aaausd", "bbbusd"] 0 40 0 1 exFeat
      (by rfl) "open" (by decide),
    c10_features_drop_columns exStore exTa ["aaausd", "bbbusd"] 0 40 0 1 exFeat
      (by rfl) "high" (by decide),
    c10_features_drop_columns exStore exTa ["aaausd", "bbbusd"] 0 40 0 1 exFeat
      (by rfl) "low" (by decide),
    c10_features_drop_columns exStore exTa ["aaausd", "bbbusd"] 0 40 0 1 exFeat
      (by rfl) "close" (by decide),
    c10_features_drop_columns exStore exTa ["aaausd", "bbbusd"] 0 40 0 1 exFeat
      (by rfl) "volume" (by decide),
    c10_features_drop_columns exStore exTa ["aaausd", "bbbusd"] 0 40 0 1 exFeat
      (by rfl) "trend_psar_down" (by decide),
    c10_features_drop_columns exStore exTa ["aaausd", "bbbusd"] 0 40 0 1 exFeat
      (by rfl) "trend_psar_up" (by decide)⟩

end CMR
